import Mathlib

/-! skift: interrupt dispatcher and event loop.

A shallow embedding of `kernel/interrupts/Dispatcher.c` and
`libraries/libsystem/eventloop/EventLoop.c`.

Conventions of the embedding.

* Pointers (function pointers, `Handle *`, `Notifier *`) are natural numbers and
  `0` is `NULL`.
* File-scope variables of a translation unit are the fields of one record that
  every function takes and returns.
* What a run makes observable from outside (a handler being called, a line
  being logged, a task being handed to the scheduler) is appended to a `log`
  field of that record.
* `assert` is fatal: a function that can fail an assertion returns an `Outcome`,
  which keeps the state the assertion fired in.
-/

namespace Skift

/-- Result of running a piece of C code: `σ` is the type of the file-scope state,
`α` what the code hands back when it runs to its end. -/
inductive Outcome (σ α : Type) where
  /-- The code ran to its end. -/
  | ok (a : α)
  /-- An `assert` fired; `s` is the state at that point. -/
  | fatal (s : σ)
  /-- The code left defined behaviour (index outside an array, pop of an empty queue). -/
  | undefined
  /-- The step budget of a loop that need not end ran out. -/
  | timeout

namespace Outcome

/-- Sequencing: the second piece of code runs only if the first ran to its end. -/
def bind {σ α β : Type} (o : Outcome σ α) (f : α → Outcome σ β) : Outcome σ β :=
  match o with
  | ok a => f a
  | fatal s => fatal s
  | undefined => undefined
  | timeout => timeout

end Outcome

/-! ## The bounded queue -/

/-- Modelled from the spec: the `RingBuffer` of `libsystem/RingBuffer.h`, which is
outside the embedded sources. The spec calls it a "fixed-capacity ring
of small integers" with `create(capacity)`, `push(value) -> bool (false if
full)`, `pop() -> value (undefined if empty)` and `is_empty() -> bool`. The ring
is `size` slots, written at `head` and read at `tail`, `used` of them
occupied. -/
structure RingBuffer where
  size : Nat
  head : Nat
  tail : Nat
  used : Nat
  buffer : Nat → Nat

/-- Modelled from the spec: `create(capacity)`, an empty ring of `size` slots. -/
def ringbuffer_create (size : Nat) : RingBuffer :=
  { size := size, head := 0, tail := 0, used := 0, buffer := fun _ => 0 }

/-- Modelled from the spec: `is_empty() -> bool`. -/
def ringbuffer_is_empty (rb : RingBuffer) : Bool :=
  rb.used == 0

/-- Modelled from the spec: the ring is full when every slot is occupied. -/
def ringbuffer_is_full (rb : RingBuffer) : Bool :=
  rb.used == rb.size

/-- Modelled from the spec: `push(value) -> bool (false if full)`. A push on a
full ring stores nothing. -/
def ringbuffer_putc (rb : RingBuffer) (c : Nat) : Bool × RingBuffer :=
  if ringbuffer_is_full rb then (false, rb)
  else
    (true,
      { rb with
        buffer := Function.update rb.buffer rb.head c
        head := (rb.head + 1) % rb.size
        used := rb.used + 1 })

/-- Modelled from the spec: `pop() -> value (undefined if empty, must be called
only after confirmed non-empty)`; `none` is the undefined case. -/
def ringbuffer_getc (rb : RingBuffer) : Option (Nat × RingBuffer) :=
  if ringbuffer_is_empty rb then none
  else
    some (rb.buffer rb.tail,
      { rb with
        tail := (rb.tail + 1) % rb.size
        used := rb.used - 1 })

/-- Values held by the ring, oldest first. -/
def RingBuffer.contents (rb : RingBuffer) : List Nat :=
  (List.range rb.used).map fun i => rb.buffer ((rb.tail + i) % rb.size)

/-- Shape of a ring that `ringbuffer_create` made and `ringbuffer_putc` /
`ringbuffer_getc` have worked on. -/
structure RingBuffer.WF (rb : RingBuffer) : Prop where
  size_pos : 0 < rb.size
  tail_lt : rb.tail < rb.size
  used_le : rb.used ≤ rb.size
  head_eq : rb.head = (rb.tail + rb.used) % rb.size

/-! ## Interrupt dispatcher (`kernel/interrupts/Dispatcher.c`) -/

/-- A `DispatcherInteruptHandler`: a function pointer, `NULL` when `0`. -/
abbrev Handler := Nat

/-- The null pointer. -/
def NULL : Nat := 0

/-- What the dispatcher task does that is visible from outside. -/
inductive Event where
  /-- The handler `h` found in slot `interrupt` was called. -/
  | invoke (interrupt : Nat) (h : Handler)
  /-- The line "No handler for interrupt %d!" was logged with `interrupt`. -/
  | warn (interrupt : Nat)
  /-- The task gave itself to `task_block` with a `dispatcher_can_unblock` blocker. -/
  | block
  deriving DecidableEq, Repr

/-- File-scope state of `Dispatcher.c`. -/
structure Dispatcher where
  /-- The pointer `_interupts_to_dispatch`; `none` is `NULL`. -/
  queue : Option RingBuffer
  /-- The table `_interupts_to_handlers[255]`; indices from 255 on are outside it. -/
  handlers : Nat → Handler
  /-- Number of tasks spawned on `dispatcher_service`. -/
  spawned : Nat
  /-- Calls and log lines so far. -/
  log : List Event

/-- State before any call: both statics zero-initialised. -/
def Dispatcher.boot : Dispatcher :=
  { queue := none, handlers := fun _ => NULL, spawned := 0, log := [] }

/-- Embeds `dispatcher_initialize`: a fresh queue of 1024 slots, and one more task
spawned on `dispatcher_service`. -/
def dispatcher_initialize (d : Dispatcher) : Dispatcher :=
  { d with queue := some (ringbuffer_create 1024), spawned := d.spawned + 1 }

/-- Embeds `dispatcher_dispatch`: push on the queue, the result of the push is not
looked at. `none` when the queue pointer is `NULL`. -/
def dispatcher_dispatch (d : Dispatcher) (interrupt : Nat) : Option Dispatcher :=
  match d.queue with
  | none => none
  | some q => some { d with queue := some (ringbuffer_putc q interrupt).2 }

/-- Embeds `dispatcher_can_unblock`: the blocker's predicate. -/
def dispatcher_can_unblock (d : Dispatcher) : Option Bool :=
  match d.queue with
  | none => none
  | some q => some (!ringbuffer_is_empty q)

/-- Where the dispatcher task stands inside one round of the `while (true)` of
`dispatcher_service`. -/
inductive Pc where
  /-- About to test `ringbuffer_is_empty` (line 37). -/
  | check
  /-- Inside `task_block`, held by the scheduler (line 47). -/
  | blocked
  /-- About to call `ringbuffer_getc` (line 50). -/
  | pop
  deriving DecidableEq, Repr

/-- Modelled from the spec: `task_block` of the scheduler (`tasking.h`, outside the
embedded sources), which "suspends the task until some future dispatch makes the
predicate true": where a task held in `task_block` stands after the scheduler
has evaluated the predicate of its blocker. It goes on, to the line after
`task_block`, when the predicate holds, and stays held when it does not. -/
def task_block (can_unblock : Bool) : Pc :=
  if can_unblock then Pc.pop else Pc.blocked

/-- Lines 56 to 63 of `dispatcher_service`: call the handler of `interrupt`, or log
the warning when the slot is null. -/
def dispatcher_handle (handlers : Nat → Handler) (interrupt : Nat) : Event :=
  if handlers interrupt ≠ NULL then Event.invoke interrupt (handlers interrupt)
  else Event.warn interrupt

/-- Embeds one move of the task running `dispatcher_service`.

* at `check`: `should_block` is computed; the task enters `task_block` when it is
  set and goes on to the pop otherwise;
* at `blocked`: the scheduler evaluates the blocker's predicate,
  `dispatcher_can_unblock`, and `task_block` says where the task stands next;
* at `pop`: `ringbuffer_getc`, then the handler lookup, then back to the top of
  the loop.

`none` when the queue pointer is `NULL`, when the pop is on an empty queue, or
when the popped number is outside the table. -/
def dispatcher_service_step (pc : Pc) (d : Dispatcher) : Option (Pc × Dispatcher) :=
  match d.queue with
  | none => none
  | some q =>
    match pc with
    | Pc.check =>
      let should_block := ringbuffer_is_empty q
      if should_block then some (Pc.blocked, { d with log := d.log ++ [Event.block] })
      else some (Pc.pop, d)
    | Pc.blocked =>
      match dispatcher_can_unblock d with
      | none => none
      | some can_unblock => some (task_block can_unblock, d)
    | Pc.pop =>
      match ringbuffer_getc q with
      | none => none
      | some (interrupt, q') =>
        if interrupt < 255 then
          some (Pc.check,
            { d with
              queue := some q'
              log := d.log ++ [dispatcher_handle d.handlers interrupt] })
        else none

/-- The task running `dispatcher_service` for `n` moves. -/
def dispatcher_service_run : Nat → Pc → Dispatcher → Option (Pc × Dispatcher)
  | 0, pc, d => some (pc, d)
  | n + 1, pc, d =>
    match dispatcher_service_step pc d with
    | none => none
    | some (pc', d') => dispatcher_service_run n pc' d'

/-- A run of `dispatcher_dispatch` calls, one per number of the list, in order. -/
def dispatcher_dispatch_all : Dispatcher → List Nat → Option Dispatcher
  | d, [] => some d
  | d, x :: xs =>
    match dispatcher_dispatch d x with
    | none => none
    | some d' => dispatcher_dispatch_all d' xs

/-- Embeds `dispatcher_register_handler`: the assertion that the slot is null,
then the store. An `interrupt` outside the table is outside defined behaviour. -/
def dispatcher_register_handler (d : Dispatcher) (interrupt : Nat) (handler : Handler) :
    Outcome Dispatcher Dispatcher :=
  if interrupt < 255 then
    if d.handlers interrupt ≠ NULL then Outcome.fatal d
    else Outcome.ok { d with handlers := Function.update d.handlers interrupt handler }
  else Outcome.undefined

/-- Body of the `for` of `dispatcher_unregister_handler` at index `i`. -/
def unregister_at (handler : Handler) (t : Nat → Handler) (i : Nat) : Nat → Handler :=
  if t i = handler then Function.update t i NULL else t

/-- Embeds `dispatcher_unregister_handler`: the loop over `i = 0 .. 254`. -/
def dispatcher_unregister_handler (d : Dispatcher) (handler : Handler) : Dispatcher :=
  { d with handlers := (List.range 255).foldl (unregister_at handler) d.handlers }

/-! ## Event loop (`libraries/libsystem/eventloop/EventLoop.c`) -/

/-- A `Handle *`. -/
abbrev Handle := Nat

/-- A `Notifier *`. -/
abbrev NotifierPtr := Nat

/-- A notifier callback: a function pointer, `NULL` when `0`. -/
abbrev Callback := Nat

/-- The six events of a `SelectEvent` bitmask, in the order `eventloop_pump` tests
them. -/
inductive SelectKind where
  | READ
  | WRITE
  | SEND
  | RECEIVE
  | CONNECT
  | ACCEPT
  deriving DecidableEq, Repr

/-- Modelled from the spec: the `Notifier` record of `libsystem/eventloop/Notifier.h`
(outside the embedded sources), "one wait handle with an interest bitmask and up to
six optional callbacks, one per bit". The field names are the ones
`EventLoop.c` reads. -/
structure Notifier where
  handle : Handle
  events : Nat
  on_ready_to_read : Callback
  on_ready_to_write : Callback
  on_ready_to_send : Callback
  on_ready_to_receive : Callback
  on_ready_to_connect : Callback
  on_ready_to_accept : Callback
  deriving DecidableEq, Repr

/-- The callback of a notifier for one event. -/
def Notifier.callback (n : Notifier) : SelectKind → Callback
  | SelectKind.READ => n.on_ready_to_read
  | SelectKind.WRITE => n.on_ready_to_write
  | SelectKind.SEND => n.on_ready_to_send
  | SelectKind.RECEIVE => n.on_ready_to_receive
  | SelectKind.CONNECT => n.on_ready_to_connect
  | SelectKind.ACCEPT => n.on_ready_to_accept

/-- A call that a callback makes back into the event loop while it runs. The
embedding covers callbacks that register notifiers and ask for the exit of the
loop; a callback that unregisters a notifier, or that pumps or runs the loop
from inside (which the spec disallows), is outside it. -/
inductive Action where
  /-- The call `eventloop_register_notifier(notifier)`. -/
  | register (notifier : NotifierPtr)
  /-- The call `eventloop_exit(exit_value)`. -/
  | exit (exit_value : Int)
  deriving DecidableEq, Repr

/-- What surrounds the event loop and is not in `EventLoop.c`. -/
structure World where
  /-- The constant `PROCESS_HANDLE_COUNT`, length of the two derived arrays. -/
  PROCESS_HANDLE_COUNT : Nat
  /-- Modelled from the spec: the constants `SELECT_READ` ... `SELECT_ACCEPT` are
  the "bits" of the bitmask; `bit k` is the position of the bit of `k`. -/
  bit : SelectKind → Nat
  /-- The notifier record stored at an address. -/
  notifier : NotifierPtr → Notifier
  /-- The calls into the loop made by the callback `fn` when it is called with
  `(notifier, handle)`, in the order it makes them. -/
  body : Callback → NotifierPtr → Handle → List Action

/-- The constant `SELECT_READ`, `SELECT_WRITE`, ... of an event. -/
def World.SELECT (w : World) (k : SelectKind) : Nat :=
  1 <<< w.bit k

/-- The error code `ERR_SUCCESS`. -/
def ERR_SUCCESS : Nat := 0

/-- What `handle_select` hands back: the `error_t` it returns and the two values
it stores through `&selected` and `&selected_events`. -/
structure SelectResult where
  result : Nat
  selected : Handle
  selected_events : Nat
  deriving DecidableEq, Repr

/-- What the event loop does that is visible from outside. -/
inductive LoopEvent where
  /-- The call of `handle_select`, with the `(handle, interest)` pairs it is given:
  the first `_eventloop_handles_count` entries of the two arrays. -/
  | select (args : List (Handle × Nat))
  /-- The line "Failled to select" was logged for the error code `result`. -/
  | error (result : Nat)
  /-- The call `fn(notifier, handle)`, made through the callback field of the
  event `kind`. -/
  | call (kind : SelectKind) (fn : Callback) (notifier : NotifierPtr) (handle : Handle)
  deriving DecidableEq, Repr

/-- File-scope state of `EventLoop.c`. -/
structure EventLoop where
  /-- The `List` behind `_eventloop_notifiers`: the registered notifiers, in
  insertion order. -/
  notifiers : List NotifierPtr
  /-- The counter `_eventloop_handles_count`. -/
  handles_count : Nat
  /-- The array `_eventloop_handles`. -/
  handles : Nat → Handle
  /-- The array `_eventloop_events`. -/
  events : Nat → Nat
  /-- The flag `_eventloop_is_running`. -/
  is_running : Bool
  /-- The flag `_eventloop_is_initialize`. -/
  is_initialize : Bool
  /-- The variable `_eventloop_exit_value`. -/
  exit_value : Int
  /-- Calls and log lines so far. -/
  log : List LoopEvent

/-- Modelled from the spec: `list_create` of `libsystem/list.h` (outside the
embedded sources), an empty "ordered collection". -/
def list_create : List NotifierPtr := []

/-- Modelled from the spec: `list_pushback` of `libsystem/list.h` (outside the
embedded sources); the spec has "insertion order preserved", so the new item goes
behind the ones held. -/
def list_pushback (list : List NotifierPtr) (value : NotifierPtr) : List NotifierPtr :=
  list ++ [value]

/-- Modelled from the spec: `list_remove` of `libsystem/list.h` (outside the
embedded sources); it takes the item out of the collection, and the spec has
"unregistering a ... notifier that is not currently registered" as a "silent
no-op". -/
def list_remove (list : List NotifierPtr) (value : NotifierPtr) : List NotifierPtr :=
  list.erase value

/-- Modelled from the spec: the loop header `list_foreach` of `libsystem/list.h`
(outside the embedded sources): the item that the loop takes at its round number
`i`, looked up among `items`, the items that the collection held, in insertion
order, when the loop was entered. The spec has "iterate every registered
notifier" and "a notifier registered from within a callback during pump N is
not visited during pump N": what the body pushes back while the loop runs is
not among `items`. `none` ends the loop. -/
def list_foreach_item (items : List NotifierPtr) (i : Nat) : Option NotifierPtr :=
  items[i]?

/-- State before any call: the statics as the loader leaves them. -/
def EventLoop.boot : EventLoop :=
  { notifiers := [], handles_count := 0, handles := fun _ => 0, events := fun _ => 0,
    is_running := false, is_initialize := false, exit_value := 0, log := [] }

/-- The arguments `handle_select` gets in state `s`. -/
def wait_args (s : EventLoop) : List (Handle × Nat) :=
  (List.range s.handles_count).map fun i => (s.handles i, s.events i)

/-- Embeds `eventloop_initilize`. -/
def eventloop_initilize (s : EventLoop) : Outcome EventLoop EventLoop :=
  if s.is_initialize then Outcome.fatal s
  else Outcome.ok { s with notifiers := list_create, is_initialize := true }

/-- Embeds `eventloop_uninitialize`; `list_destroy` leaves no collection. -/
def eventloop_uninitialize (s : EventLoop) : Outcome EventLoop EventLoop :=
  if ! s.is_initialize then Outcome.fatal s
  else if s.is_running then Outcome.fatal s
  else Outcome.ok { s with notifiers := [], is_initialize := false }

/-- Embeds `eventloop_exit`. -/
def eventloop_exit (exit_value : Int) (s : EventLoop) : Outcome EventLoop EventLoop :=
  if ! s.is_initialize then Outcome.fatal s
  else if ! s.is_running then Outcome.fatal s
  else Outcome.ok { s with is_running := false, exit_value := exit_value }

/-- The `list_foreach` of `eventloop_update_notifier` over the notifiers still to
visit: one store in each array at index `_eventloop_handles_count`, then the
increment. A store at an index from `PROCESS_HANDLE_COUNT` on is outside the
arrays. -/
def eventloop_update_loop (w : World) : List NotifierPtr → EventLoop → Outcome EventLoop EventLoop
  | [], s => Outcome.ok s
  | p :: ps, s =>
    if s.handles_count < w.PROCESS_HANDLE_COUNT then
      eventloop_update_loop w ps
        { s with
          handles := Function.update s.handles s.handles_count (w.notifier p).handle
          events := Function.update s.events s.handles_count (w.notifier p).events
          handles_count := s.handles_count + 1 }
    else Outcome.undefined

/-- Embeds `eventloop_update_notifier`. -/
def eventloop_update_notifier (w : World) (s : EventLoop) : Outcome EventLoop EventLoop :=
  eventloop_update_loop w s.notifiers { s with handles_count := 0 }

/-- Embeds `eventloop_register_notifier`. -/
def eventloop_register_notifier (w : World) (notifier : NotifierPtr) (s : EventLoop) :
    Outcome EventLoop EventLoop :=
  if ! s.is_initialize then Outcome.fatal s
  else eventloop_update_notifier w { s with notifiers := list_pushback s.notifiers notifier }

/-- Embeds `eventloop_unregister_notifier`. -/
def eventloop_unregister_notifier (w : World) (notifier : NotifierPtr) (s : EventLoop) :
    Outcome EventLoop EventLoop :=
  if ! s.is_initialize then Outcome.fatal s
  else eventloop_update_notifier w { s with notifiers := list_remove s.notifiers notifier }

/-- One call that a callback makes into the loop. -/
def eventloop_act (w : World) : Action → EventLoop → Outcome EventLoop EventLoop
  | Action.register notifier, s => eventloop_register_notifier w notifier s
  | Action.exit exit_value, s => eventloop_exit exit_value s

/-- The calls that a callback makes into the loop, one after the other. -/
def eventloop_acts (w : World) : List Action → EventLoop → Outcome EventLoop EventLoop
  | [], s => Outcome.ok s
  | a :: as, s => (eventloop_act w a s).bind (eventloop_acts w as)

/-- The call `fn(notifier, notifier->handle)` through the field of event `k`: the
call is recorded, then the callback runs. -/
def eventloop_call (w : World) (k : SelectKind) (fn : Callback) (notifier : NotifierPtr)
    (s : EventLoop) : Outcome EventLoop EventLoop :=
  eventloop_acts w (w.body fn notifier (w.notifier notifier).handle)
    { s with log := s.log ++ [LoopEvent.call k fn notifier (w.notifier notifier).handle] }

/-- One of the six `if` statements in the body of the `list_foreach` of
`eventloop_pump`: the bit of `k` is tested in `selected_events`, the callback
field is tested against `NULL`, and the callback is called when both hold. -/
def eventloop_fire (w : World) (selected_events : Nat) (k : SelectKind) (fn : Callback)
    (notifier : NotifierPtr) (s : EventLoop) : Outcome EventLoop EventLoop :=
  if selected_events &&& w.SELECT k ≠ 0 ∧ fn ≠ NULL then eventloop_call w k fn notifier s
  else Outcome.ok s

/-- Body of the `list_foreach` of `eventloop_pump` for one notifier (lines 70 to
107). -/
def eventloop_pump_notifier (w : World) (selected : Handle) (selected_events : Nat)
    (notifier : NotifierPtr) (s : EventLoop) : Outcome EventLoop EventLoop :=
  if (w.notifier notifier).handle = selected then
    ((((((eventloop_fire w selected_events SelectKind.READ
            (w.notifier notifier).on_ready_to_read notifier s).bind
          (eventloop_fire w selected_events SelectKind.WRITE
            (w.notifier notifier).on_ready_to_write notifier)).bind
          (eventloop_fire w selected_events SelectKind.SEND
            (w.notifier notifier).on_ready_to_send notifier)).bind
          (eventloop_fire w selected_events SelectKind.RECEIVE
            (w.notifier notifier).on_ready_to_receive notifier)).bind
          (eventloop_fire w selected_events SelectKind.CONNECT
            (w.notifier notifier).on_ready_to_connect notifier)).bind
          (eventloop_fire w selected_events SelectKind.ACCEPT
            (w.notifier notifier).on_ready_to_accept notifier))
  else Outcome.ok s

/-- The `list_foreach` of `eventloop_pump` at its round number `i` (lines 68 to
108), `items` being the notifiers registered when the loop was entered: the body
runs on the item of that round, then the loop goes to its next round; the loop
ends when there is no item. `fuel` bounds the rounds. -/
def eventloop_pump_loop (w : World) (selected : Handle) (selected_events : Nat)
    (items : List NotifierPtr) : Nat → Nat → EventLoop → Outcome EventLoop EventLoop
  | 0, _, _ => Outcome.timeout
  | fuel + 1, i, s =>
    match list_foreach_item items i with
    | none => Outcome.ok s
    | some notifier =>
      (eventloop_pump_notifier w selected selected_events notifier s).bind
        (eventloop_pump_loop w selected selected_events items fuel (i + 1))

/-- Embeds `eventloop_pump`; `r` is what `handle_select` hands back to this call. -/
def eventloop_pump (w : World) (fuel : Nat) (r : SelectResult) (s : EventLoop) :
    Outcome EventLoop EventLoop :=
  if ! s.is_initialize then Outcome.fatal s
  else if r.result ≠ ERR_SUCCESS then
    Outcome.ok { s with log := s.log ++ [LoopEvent.select (wait_args s), LoopEvent.error r.result] }
  else
    eventloop_pump_loop w r.selected r.selected_events s.notifiers fuel 0
      { s with log := s.log ++ [LoopEvent.select (wait_args s)] }

/-- The `while (_eventloop_is_running)` of `eventloop_run`, about to make the wait
call number `k`; `sel k` is what that call hands back. `rounds` bounds the pumps,
`fuel` the rounds of the loop inside each pump. -/
def eventloop_run_loop (w : World) (sel : Nat → SelectResult) (fuel : Nat) :
    Nat → Nat → EventLoop → Outcome EventLoop EventLoop
  | 0, _, _ => Outcome.timeout
  | rounds + 1, k, s =>
    if s.is_running then
      (eventloop_pump w fuel (sel k) s).bind (eventloop_run_loop w sel fuel rounds (k + 1))
    else Outcome.ok s

/-- Embeds `eventloop_run`: the value returned, with the state it leaves. -/
def eventloop_run (w : World) (sel : Nat → SelectResult) (fuel rounds : Nat) (s : EventLoop) :
    Outcome EventLoop (Int × EventLoop) :=
  if ! s.is_initialize then Outcome.fatal s
  else if s.is_running then Outcome.fatal s
  else
    ((eventloop_run_loop w sel fuel rounds 0 { s with is_running := true }).bind
      eventloop_uninitialize).bind fun s' => Outcome.ok (s'.exit_value, s')

/-- The calls that the spec gives for one notifier: its callbacks that are there
(not null) and whose bit is set in the bitmask, in the order READ, WRITE, SEND,
RECEIVE, CONNECT, ACCEPT, each called with the notifier and the notifier's
handle. -/
def expected_calls_of (w : World) (selected_events : Nat) (p : NotifierPtr) : List LoopEvent :=
  ([SelectKind.READ, SelectKind.WRITE, SelectKind.SEND, SelectKind.RECEIVE,
      SelectKind.CONNECT, SelectKind.ACCEPT].filter fun k =>
      selected_events.testBit (w.bit k) && decide ((w.notifier p).callback k ≠ NULL)).map
    fun k => LoopEvent.call k ((w.notifier p).callback k) p (w.notifier p).handle

/-- The calls that the spec gives for one pump: the calls of each registered
notifier bound to the selected handle, in registration order. -/
def expected_calls (w : World) (notifiers : List NotifierPtr) (selected : Handle)
    (selected_events : Nat) : List LoopEvent :=
  (notifiers.filter fun p => decide ((w.notifier p).handle = selected)).flatMap
    (expected_calls_of w selected_events)

/-! ## Reading a run of the event loop -/

/-- The calls into the loop made by the callback behind a logged call. -/
def actions_of (w : World) : LoopEvent → List Action
  | LoopEvent.call _ fn notifier handle => w.body fn notifier handle
  | _ => []

/-- The notifiers registered by a run of calls into the loop, in order. -/
def registered : List Action → List NotifierPtr
  | [] => []
  | Action.register p :: as => p :: registered as
  | Action.exit _ :: as => registered as

/-- The exit codes handed to `eventloop_exit` by a run of calls into the loop. -/
def exits : List Action → List Int
  | [] => []
  | Action.register _ :: as => exits as
  | Action.exit c :: as => c :: exits as

/-- The call that one `if` of the body of the pump loop makes, if it makes one. -/
def fire_calls (w : World) (selected_events : Nat) (k : SelectKind) (fn : Callback)
    (p : NotifierPtr) : List LoopEvent :=
  if selected_events &&& w.SELECT k ≠ 0 ∧ fn ≠ NULL then
    [LoopEvent.call k fn p (w.notifier p).handle]
  else []

/-- The calls that the spec gives for one notifier of the collection in one pump:
none when it is bound to another handle than the selected one. -/
def calls_for (w : World) (selected : Handle) (selected_events : Nat) (p : NotifierPtr) :
    List LoopEvent :=
  if (w.notifier p).handle = selected then expected_calls_of w selected_events p else []

/-- The pair that a notifier contributes to the arguments of the wait call. -/
def wait_entry (w : World) (p : NotifierPtr) : Handle × Nat :=
  ((w.notifier p).handle, (w.notifier p).events)

/-- The derived arrays describe the collection: as many entries as notifiers, and
entry `i` is the handle and the interest mask of notifier `i`. -/
def in_sync (w : World) (s : EventLoop) : Prop :=
  wait_args s = s.notifiers.map (wait_entry w)

/-- What a piece of the event loop that ran to its end from `s` to `s'` did: it
logged `tr`, and the callbacks it called made the calls `as` into the loop. -/
structure Effect (w : World) (s s' : EventLoop) (tr : List LoopEvent) (as : List Action) :
    Prop where
  /-- The loop stays initialised. -/
  init : s'.is_initialize = true
  /-- The log grows by `tr`. -/
  log : s'.log = s.log ++ tr
  /-- The collection grows by the notifiers registered, in order. -/
  notifiers : s'.notifiers = s.notifiers ++ registered as
  /-- Once something was registered the arrays describe the collection. -/
  sync : registered as ≠ [] → in_sync w s'
  /-- With nothing registered the arrays are as they were. -/
  args : registered as = [] → wait_args s' = wait_args s
  /-- Either no exit was asked and the flag and the code are as they were, or one
  exit was asked, of a loop that was running, and the loop has its code. -/
  exit :
    (exits as = [] ∧ s'.is_running = s.is_running ∧ s'.exit_value = s.exit_value) ∨
      ∃ c, exits as = [c] ∧ s.is_running = true ∧ s'.is_running = false ∧ s'.exit_value = c

/-- Number of `eventloop_exit` calls that pass the assertions of `eventloop_exit`
from state `s`: one when the loop is running, none otherwise. -/
def exit_budget (s : EventLoop) : Nat :=
  if s.is_running then 1 else 0

/-- The notifiers that the calls `as` register from state `s` fit in the arrays
with the ones registered already; calls that register nothing always have
room. -/
def room (w : World) (s : EventLoop) (as : List Action) : Prop :=
  (registered as).length = 0 ∨
    s.notifiers.length + (registered as).length ≤ w.PROCESS_HANDLE_COUNT

/-- No callback registers a notifier: the callbacks do not change the
collection. -/
def World.quiet (w : World) : Prop :=
  ∀ fn p h, registered (w.body fn p h) = []

/-! ## Concrete inputs -/

/-- A handler table with handlers `7` and `9` in slots `3` and `5`. -/
def table_demo : Nat → Handler := fun n => if n = 3 then 7 else if n = 5 then 9 else NULL

/-- The dispatcher right after `dispatcher_initialize`, with `table_demo` as its
handler table. -/
def dispatcher_demo : Dispatcher :=
  { dispatcher_initialize Dispatcher.boot with handlers := table_demo }

/-- A queue of 1024 slots that holds the single number `4`. -/
def queue_demo : RingBuffer := (ringbuffer_putc (ringbuffer_create 1024) 4).2

/-- The queue `queue_demo` once its number is popped. -/
def queue_demo_popped : RingBuffer := { queue_demo with tail := 1, used := 0 }

/-- The dispatcher `dispatcher_demo` with the number `4` queued. -/
def dispatcher_demo_queued : Dispatcher := { dispatcher_demo with queue := some queue_demo }

/-- Bit positions 0 to 5 for READ, WRITE, SEND, RECEIVE, CONNECT, ACCEPT. -/
def bit_demo : SelectKind → Nat
  | SelectKind.READ => 0
  | SelectKind.WRITE => 1
  | SelectKind.SEND => 2
  | SelectKind.RECEIVE => 3
  | SelectKind.CONNECT => 4
  | SelectKind.ACCEPT => 5

/-- A notifier record with no callback. -/
def notifier_blank (handle : Handle) (events : Nat) : Notifier :=
  { handle := handle, events := events, on_ready_to_read := NULL, on_ready_to_write := NULL,
    on_ready_to_send := NULL, on_ready_to_receive := NULL, on_ready_to_connect := NULL,
    on_ready_to_accept := NULL }

/-- Three notifier records: `1` (handle 10, interest READ, read callback 101), `2`
(handle 10, interest WRITE, write callback 102) and `3` (handle 20, interest
READ, read callback 103). -/
def notifier_demo : NotifierPtr → Notifier
  | 1 => { notifier_blank 10 1 with on_ready_to_read := 101 }
  | 2 => { notifier_blank 10 2 with on_ready_to_write := 102 }
  | 3 => { notifier_blank 20 1 with on_ready_to_read := 103 }
  | _ => notifier_blank 0 0

/-- A world in which callback 101 asks the loop to exit with code 7 and no other
callback calls into the loop. -/
def world_demo : World :=
  { PROCESS_HANDLE_COUNT := 32, bit := bit_demo, notifier := notifier_demo,
    body := fun fn _ _ => if fn = 101 then [Action.exit 7] else [] }

/-- A running loop with the notifiers `1`, `2`, `3` registered in that order. -/
def loop_demo : EventLoop :=
  { notifiers := [1, 2, 3], handles_count := 3,
    handles := fun i => if i < 2 then 10 else if i = 2 then 20 else 0,
    events := fun i => if i = 1 then 2 else if i < 3 then 1 else 0,
    is_running := true, is_initialize := true, exit_value := 0, log := [] }

/-- Two notifier records on handle 10: `1` has interest READ and carries a read
callback 101 and a write callback 111; `2` has interest WRITE and carries a write
callback 102. -/
def notifier_both : NotifierPtr → Notifier
  | 1 => { notifier_blank 10 1 with on_ready_to_read := 101, on_ready_to_write := 111 }
  | 2 => { notifier_blank 10 2 with on_ready_to_write := 102 }
  | _ => notifier_blank 0 0

/-- A world with the records of `notifier_both`, whose callbacks make no call into
the loop. -/
def world_both : World :=
  { PROCESS_HANDLE_COUNT := 32, bit := bit_demo, notifier := notifier_both,
    body := fun _ _ _ => [] }

/-- An initialised loop with the notifiers `1` and `2` registered in that order. -/
def loop_both : EventLoop :=
  { notifiers := [1, 2], handles_count := 2, handles := fun i => if i < 2 then 10 else 0,
    events := fun i => if i = 0 then 1 else if i = 1 then 2 else 0,
    is_running := false, is_initialize := true, exit_value := 0, log := [] }

/-- The records of `notifier_demo`, and a record `4` bound to handle 10 with read
callback 104. -/
def notifier_late : NotifierPtr → Notifier
  | 4 => { notifier_blank 10 1 with on_ready_to_read := 104 }
  | p => notifier_demo p

/-- A world in which callback 101 registers the notifiers `4` (handle 10) and `3`
(handle 20), and no other callback calls into the loop. -/
def world_late : World :=
  { PROCESS_HANDLE_COUNT := 32, bit := bit_demo, notifier := notifier_late,
    body := fun fn _ _ => if fn = 101 then [Action.register 4, Action.register 3] else [] }

/-- A running loop with the single notifier `1` registered. -/
def loop_late : EventLoop :=
  { notifiers := [1], handles_count := 1, handles := fun i => if i = 0 then 10 else 0,
    events := fun i => if i = 0 then 1 else 0,
    is_running := true, is_initialize := true, exit_value := 0, log := [] }

/-- Wait results of a run: handle 20 with READ first, then handle 10 with READ and
WRITE. -/
def select_demo (k : Nat) : SelectResult :=
  if k = 0 then ⟨ERR_SUCCESS, 20, 1⟩ else ⟨ERR_SUCCESS, 10, 3⟩

/-- The loop `loop_demo` before `eventloop_run` is called on it. -/
def loop_demo_idle : EventLoop := { loop_demo with is_running := false }

/-- The loop `loop_demo` after the first pump of the run on `select_demo`. -/
def loop_demo_first : EventLoop :=
  { loop_demo with
    log := [LoopEvent.select [(10, 1), (10, 2), (20, 1)],
      LoopEvent.call SelectKind.READ 103 3 20] }

/-! ## Invariants, sequences of calls and interleavings -/

/-- The derived arrays describe the collection, entry by entry: the handle count
is the number of registered notifiers, and for every index below it the handle
and the interest mask at that index are those of the notifier at that position
of the collection. -/
def arrays_describe (w : World) (s : EventLoop) : Prop :=
  s.handles_count = s.notifiers.length ∧
    ∀ (i : Nat) (h : i < s.notifiers.length),
      s.handles i = (w.notifier (s.notifiers.get ⟨i, h⟩)).handle ∧
        s.events i = (w.notifier (s.notifiers.get ⟨i, h⟩)).events

/-- A piece of the event loop only adds to the log: when it runs to its end from
an initialised state, the loop is still initialised and the log has grown at its
end, and when an assertion fires in it, the log of the state the assertion fired
in is the log it began with, grown at its end. -/
def Grows (g : EventLoop → Outcome EventLoop EventLoop) : Prop :=
  ∀ s : EventLoop, s.is_initialize = true →
    (∀ s', g s = Outcome.ok s' → s'.is_initialize = true ∧ ∃ tr, s'.log = s.log ++ tr) ∧
      ∀ x, g s = Outcome.fatal x → ∃ tr, x.log = s.log ++ tr

/-- The flags of a loop agree with its life cycle: a loop that is running is
initialised. -/
def lifecycle_ok (s : EventLoop) : Prop :=
  s.is_running = true → s.is_initialize = true

/-- A call of one of the six operations that `EventLoop.c` offers to its users. -/
inductive LoopCall where
  /-- The call `eventloop_initilize()`. -/
  | initilize
  /-- The call `eventloop_uninitialize()`. -/
  | uninitialize
  /-- The call `eventloop_register_notifier(notifier)`. -/
  | register (notifier : NotifierPtr)
  /-- The call `eventloop_unregister_notifier(notifier)`. -/
  | unregister (notifier : NotifierPtr)
  /-- The call `eventloop_exit(exit_value)`. -/
  | exit (exit_value : Int)
  /-- The call `eventloop_run()`, with the results `sel` of its wait calls and the
  bounds `fuel`, `rounds` on its loops. -/
  | run (sel : Nat → SelectResult) (fuel rounds : Nat)

/-- One call of an operation of the event loop, from state `s`. -/
def eventloop_do (w : World) : LoopCall → EventLoop → Outcome EventLoop EventLoop
  | LoopCall.initilize, s => eventloop_initilize s
  | LoopCall.uninitialize, s => eventloop_uninitialize s
  | LoopCall.register notifier, s => eventloop_register_notifier w notifier s
  | LoopCall.unregister notifier, s => eventloop_unregister_notifier w notifier s
  | LoopCall.exit exit_value, s => eventloop_exit exit_value s
  | LoopCall.run sel fuel rounds, s =>
    (eventloop_run w sel fuel rounds s).bind fun vs => Outcome.ok vs.2

/-- A sequence of calls of the operations of the event loop, one after the
other. -/
def eventloop_calls (w : World) : List LoopCall → EventLoop → Outcome EventLoop EventLoop
  | [], s => Outcome.ok s
  | c :: cs, s => (eventloop_do w c s).bind (eventloop_calls w cs)

/-- The loop after it was initialised, given notifier `1`, uninitialised, and
initialised again. -/
def loop_stale : EventLoop :=
  match eventloop_calls world_demo
      [ LoopCall.initilize, LoopCall.register 1, LoopCall.uninitialize, LoopCall.initilize]
      EventLoop.boot with
  | Outcome.ok s => s
  | _ => EventLoop.boot

/-- A move of the kernel around the interrupt queue: the dispatcher task makes its
next move, or an interrupt comes in and `dispatcher_dispatch` is called on its
number. No other move takes anything off the queue. -/
inductive Move where
  | task
  | irq (interrupt : Nat)
  deriving DecidableEq, Repr

/-- One move of the kernel, the dispatcher task standing at `pc`. -/
def system_step (m : Move) (pc : Pc) (d : Dispatcher) : Option (Pc × Dispatcher) :=
  match m with
  | Move.task => dispatcher_service_step pc d
  | Move.irq interrupt =>
    match dispatcher_dispatch d interrupt with
    | none => none
    | some d' => some (pc, d')

/-- A sequence of moves of the kernel, in order. -/
def system_run : List Move → Pc → Dispatcher → Option (Pc × Dispatcher)
  | [], pc, d => some (pc, d)
  | m :: ms, pc, d =>
    match system_step m pc d with
    | none => none
    | some (pc', d') => system_run ms pc' d'

/-- The numbers handed to `dispatcher_dispatch` by a sequence of moves, in order. -/
def pushed : List Move → List Nat
  | [] => []
  | Move.task :: ms => pushed ms
  | Move.irq interrupt :: ms => interrupt :: pushed ms

/-- The numbers popped by the dispatcher task, read off its log: each pop is
followed by the call of a handler or by a warning, which name the number. -/
def popped : List Event → List Nat
  | [] => []
  | Event.invoke interrupt _ :: es => interrupt :: popped es
  | Event.warn interrupt :: es => interrupt :: popped es
  | Event.block :: es => popped es

/-- A sequence of moves: the task blocks, interrupt 3 comes in, the task goes on,
interrupt 4 comes in before the pop, and the task pops both. -/
def moves_demo : List Move :=
  [Move.task, Move.irq 3, Move.task, Move.irq 4, Move.task, Move.task, Move.task]

/-- The world `world_demo` with arrays of two entries. -/
def world_small : World := { world_demo with PROCESS_HANDLE_COUNT := 2 }

/-- The loop of `world_small` after it was initialised and given the notifiers `1`
and `2`: both arrays are full. -/
def loop_full : EventLoop :=
  match eventloop_calls world_small
      [ LoopCall.initilize, LoopCall.register 1, LoopCall.register 2] EventLoop.boot with
  | Outcome.ok s => s
  | _ => EventLoop.boot

/-! ## Facts about the bounded queue -/

theorem ringbuffer_create_wf (size : Nat) (h : 0 < size) : (ringbuffer_create size).WF :=
  ⟨h, h, Nat.zero_le _, by simp [ringbuffer_create]⟩

theorem ringbuffer_create_contents (size : Nat) : (ringbuffer_create size).contents = [] := by
  simp [ringbuffer_create, RingBuffer.contents]

/-- Two offsets below the ring size that land on one slot are the same offset. -/
theorem ring_slot_inj {t i j n : Nat} (hi : i < n) (hj : j < n)
    (h : (t + i) % n = (t + j) % n) : i = j := by
  have h1 : t + i ≡ t + j [MOD n] := h
  exact (Nat.ModEq.add_left_cancel' t h1).eq_of_lt_of_lt hi hj

/-- A push on a ring that is not full puts the value behind the ones held. -/
theorem ringbuffer_putc_contents (rb : RingBuffer) (c : Nat) (hwf : rb.WF)
    (hroom : rb.used < rb.size) :
    (ringbuffer_putc rb c).2.WF ∧ (ringbuffer_putc rb c).2.size = rb.size ∧
      (ringbuffer_putc rb c).2.used = rb.used + 1 ∧
      (ringbuffer_putc rb c).2.contents = rb.contents ++ [c] := by
  have hnf : ringbuffer_is_full rb = false := by
    simp [ringbuffer_is_full]; omega
  simp only [ringbuffer_putc, hnf, Bool.false_eq_true, if_false]
  refine ⟨⟨hwf.size_pos, hwf.tail_lt, hroom, ?_⟩, trivial, trivial, ?_⟩
  · show (rb.head + 1) % rb.size = (rb.tail + (rb.used + 1)) % rb.size
    rw [hwf.head_eq, Nat.mod_add_mod, Nat.add_assoc]
  · show (List.range (rb.used + 1)).map
        (fun i => Function.update rb.buffer rb.head c ((rb.tail + i) % rb.size)) =
      rb.contents ++ [c]
    rw [List.range_succ, List.map_append]
    congr 1
    · apply List.map_congr_left
      intro i hi
      have hi' : i < rb.used := List.mem_range.mp hi
      have hne : (rb.tail + i) % rb.size ≠ rb.head := by
        rw [hwf.head_eq]
        intro h
        have := ring_slot_inj (by omega) hroom h
        omega
      simp [Function.update_noteq hne]
    · rw [List.map_singleton, ← hwf.head_eq, Function.update_same]

/-- A push keeps the shape of the ring, full or not. -/
theorem ringbuffer_putc_wf (rb : RingBuffer) (c : Nat) (hwf : rb.WF) :
    (ringbuffer_putc rb c).2.WF := by
  by_cases hroom : rb.used < rb.size
  · exact (ringbuffer_putc_contents rb c hwf hroom).1
  · have hfull : ringbuffer_is_full rb = true := by
      have := hwf.used_le
      simp [ringbuffer_is_full]
      omega
    simp only [ringbuffer_putc, hfull, if_true]
    exact hwf

/-- A pop on a ring that holds something hands back the oldest value. -/
theorem ringbuffer_getc_contents (rb : RingBuffer) (hwf : rb.WF) (hused : 0 < rb.used) :
    ∃ v rb', ringbuffer_getc rb = some (v, rb') ∧ rb'.WF ∧ rb'.size = rb.size ∧
      rb'.used + 1 = rb.used ∧ rb.contents = v :: rb'.contents := by
  have hne : ringbuffer_is_empty rb = false := by
    simp [ringbuffer_is_empty]; omega
  refine ⟨rb.buffer rb.tail,
    { rb with tail := (rb.tail + 1) % rb.size, used := rb.used - 1 },
    by simp only [ringbuffer_getc, hne, Bool.false_eq_true, if_false], ?_, rfl, ?_, ?_⟩
  · refine ⟨hwf.size_pos, Nat.mod_lt _ hwf.size_pos, ?_, ?_⟩
    · show rb.used - 1 ≤ rb.size
      have := hwf.used_le
      omega
    · show rb.head = ((rb.tail + 1) % rb.size + (rb.used - 1)) % rb.size
      rw [hwf.head_eq, Nat.mod_add_mod]
      congr 1
      omega
  · show rb.used - 1 + 1 = rb.used
    omega
  · obtain ⟨n, hn⟩ : ∃ n, rb.used = n + 1 := ⟨rb.used - 1, by omega⟩
    simp only [RingBuffer.contents, hn, Nat.add_sub_cancel]
    rw [List.range_succ_eq_map, List.map_cons, List.map_map]
    congr 1
    · simp [Nat.mod_eq_of_lt hwf.tail_lt]
    · apply List.map_congr_left
      intro i _
      simp only [Function.comp, Nat.mod_add_mod]
      congr 2
      omega

/-! ## Facts about the dispatcher -/

/-- A run of dispatches that fits in the queue puts the numbers behind the ones
held, in the order of the calls, and touches nothing else. -/
theorem dispatch_all_queue (xs : List Nat) :
    ∀ (d : Dispatcher) (q : RingBuffer), d.queue = some q → q.WF →
      q.used + xs.length ≤ q.size →
      ∃ q', dispatcher_dispatch_all d xs = some { d with queue := some q' } ∧ q'.WF ∧
        q'.size = q.size ∧ q'.used = q.used + xs.length ∧ q'.contents = q.contents ++ xs := by
  induction xs with
  | nil =>
    intro d q hq hwf _
    refine ⟨q, ?_, hwf, rfl, rfl, by simp⟩
    simp only [dispatcher_dispatch_all, ← hq]
  | cons x xs ih =>
    intro d q hq hwf hroom
    simp only [List.length_cons] at hroom
    obtain ⟨hwf1, hsz1, hu1, hc1⟩ := ringbuffer_putc_contents q x hwf (by omega)
    obtain ⟨q', hrun, hwf', hsz', hu', hc'⟩ :=
      ih { d with queue := some (ringbuffer_putc q x).2 } (ringbuffer_putc q x).2 rfl hwf1
        (by rw [hsz1, hu1]; omega)
    refine ⟨q', ?_, hwf', hsz'.trans hsz1, ?_, ?_⟩
    · simp only [dispatcher_dispatch_all, dispatcher_dispatch, hq]
      exact hrun
    · rw [hu', hu1, List.length_cons]; omega
    · rw [hc', hc1, List.append_assoc, List.singleton_append]

/-- The first `k` rounds of the dispatcher task on a queue that holds at least `k`
numbers: the `k` oldest numbers are popped, oldest first, and each is handled on
the spot. -/
theorem service_pops (k : Nat) :
    ∀ (d : Dispatcher) (q : RingBuffer), d.queue = some q → q.WF → k ≤ q.used →
      (∀ x ∈ q.contents, x < 255) →
      ∃ q', dispatcher_service_run (2 * k) Pc.check d =
          some (Pc.check,
            { d with
              queue := some q'
              log := d.log ++ (q.contents.take k).map (dispatcher_handle d.handlers) }) ∧
        q'.WF ∧ q'.size = q.size ∧ q'.used + k = q.used ∧ q'.contents = q.contents.drop k := by
  induction k with
  | zero =>
    intro d q hq hwf _ _
    refine ⟨q, ?_, hwf, rfl, rfl, rfl⟩
    simp only [Nat.mul_zero, dispatcher_service_run, List.take_zero, List.map_nil,
      List.append_nil, ← hq]
  | succ k ih =>
    intro d q hq hwf hk hlt
    obtain ⟨v, q1, hget, hwf1, hsz1, hu1, hc1⟩ := ringbuffer_getc_contents q hwf (by omega)
    have hne : ringbuffer_is_empty q = false := by
      simp [ringbuffer_is_empty]; omega
    have hv : v < 255 := hlt v (by rw [hc1]; exact List.mem_cons_self _ _)
    obtain ⟨q', hrun, hwf', hsz', hu', hc'⟩ :=
      ih { d with queue := some q1, log := d.log ++ [dispatcher_handle d.handlers v] } q1 rfl
        hwf1 (by omega) (fun x hx => hlt x (by rw [hc1]; exact List.mem_cons_of_mem _ hx))
    refine ⟨q', ?_, hwf', hsz'.trans hsz1, by omega, ?_⟩
    · rw [show 2 * (k + 1) = 2 * k + 1 + 1 by ring]
      simp only [dispatcher_service_run, dispatcher_service_step, hq, hne, hget, hv,
        Bool.false_eq_true, if_false, if_true]
      rw [hrun, hc1]
      simp [List.append_assoc]
    · rw [hc', hc1, List.drop_succ_cons]

/-- The first `k + 1` rounds of the dispatcher task on a queue that holds more than
`k` numbers, the first round entered at the emptiness test or resumed from
`task_block`: the `k + 1` oldest numbers are popped, oldest first, and each is
handled on the spot. -/
theorem service_pops_from (k : Nat) (pc : Pc) (hpc : pc = Pc.check ∨ pc = Pc.blocked)
    (d : Dispatcher) (q : RingBuffer) (hq : d.queue = some q) (hwf : q.WF) (hk : k < q.used)
    (hlt : ∀ x ∈ q.contents, x < 255) :
    ∃ q', dispatcher_service_run (2 * (k + 1)) pc d =
        some (Pc.check,
          { d with
            queue := some q'
            log := d.log ++ (q.contents.take (k + 1)).map (dispatcher_handle d.handlers) }) ∧
      q'.contents = q.contents.drop (k + 1) := by
  obtain ⟨v, q1, hget, hwf1, _, hu1, hc1⟩ := ringbuffer_getc_contents q hwf (by omega)
  have hne : ringbuffer_is_empty q = false := by
    simp [ringbuffer_is_empty]; omega
  have hv : v < 255 := hlt v (by rw [hc1]; exact List.mem_cons_self _ _)
  obtain ⟨q', hrun, _, _, _, hc'⟩ :=
    service_pops k { d with queue := some q1, log := d.log ++ [dispatcher_handle d.handlers v] }
      q1 rfl hwf1 (by omega) (fun x hx => hlt x (by rw [hc1]; exact List.mem_cons_of_mem _ hx))
  refine ⟨q', ?_, by rw [hc', hc1, List.drop_succ_cons]⟩
  rw [show 2 * (k + 1) = 2 * k + 1 + 1 by ring]
  rcases hpc with rfl | rfl
  · simp only [dispatcher_service_run, dispatcher_service_step, hq, hne, hget, hv,
      Bool.false_eq_true, if_false, if_true]
    rw [hrun, hc1]
    simp [List.append_assoc]
  · simp only [dispatcher_service_run, dispatcher_service_step, dispatcher_can_unblock,
      task_block, hq, hne, hget, hv, Bool.not_false, if_true]
    rw [hrun, hc1]
    simp [List.append_assoc]

/-! ## The dispatcher's contract -/

/-- C1: FIFO delivery. Take any handler table and a queue of capacity 1024 that
the dispatcher task has drained; dispatch any sequence `xs` of at most 1024
interrupt numbers, each in 0..254. All the dispatches go through and log
nothing. Then let the dispatcher task run, from the emptiness test or from
`task_block` where it waited: for every `k` below the number of dispatches, its
first `k + 1` rounds pop exactly the first `k + 1` numbers of `xs`, in the order
they were dispatched: the log grows by one entry per popped number `n`, in that
order, which is the call of the handler registered in slot `n`, with `n` as its
argument, when that slot is not null, and the warning for `n` when it is; the
numbers not yet popped are still queued in their order, and the table is not
touched. -/
theorem dispatcher_fifo_order (d : Dispatcher) (q : RingBuffer) (xs : List Nat)
    (hq : d.queue = some q) (hwf : q.WF) (hsize : q.size = 1024)
    (hempty : ringbuffer_is_empty q = true)
    (hx : ∀ x ∈ xs, x < 255) (hlen : xs.length ≤ 1024) :
    ∃ d1, dispatcher_dispatch_all d xs = some d1 ∧ d1.log = d.log ∧
      ∀ pc, pc = Pc.check ∨ pc = Pc.blocked → ∀ k, k < xs.length →
        ∃ d2 q2, dispatcher_service_run (2 * (k + 1)) pc d1 = some (Pc.check, d2) ∧
          d2.log = d.log ++ (xs.take (k + 1)).map (fun n =>
            if d.handlers n ≠ NULL then Event.invoke n (d.handlers n) else Event.warn n) ∧
          d2.handlers = d.handlers ∧ d2.queue = some q2 ∧
          q2.contents = xs.drop (k + 1) := by
  have hused : q.used = 0 := by simpa [ringbuffer_is_empty] using hempty
  have hnil : q.contents = [] := by simp [RingBuffer.contents, hused]
  obtain ⟨q1, hall, hwf1, _, hu1, hc1⟩ := dispatch_all_queue xs d q hq hwf (by omega)
  rw [hnil, List.nil_append] at hc1
  refine ⟨_, hall, rfl, ?_⟩
  intro pc hpc k hk
  obtain ⟨q2, hrun, hc2⟩ :=
    service_pops_from k pc hpc { d with queue := some q1 } q1 rfl hwf1 (by omega)
      (by rw [hc1]; exact hx)
  exact ⟨_, q2, hrun, by rw [hc1]; rfl, rfl, rfl, by rw [hc2, hc1]⟩

/-- C1 at a concrete input: after `dispatcher_initialize`, the dispatches 3, 5, 4, 3
with handlers in slots 3 and 5 only. -/
theorem dispatcher_fifo_order_witness :
    ringbuffer_is_empty (ringbuffer_create 1024) = true ∧
    ∃ d1, dispatcher_dispatch_all dispatcher_demo [3, 5, 4, 3] = some d1 ∧
      d1.log = dispatcher_demo.log ∧
      ∀ pc, pc = Pc.check ∨ pc = Pc.blocked → ∀ k, k < [3, 5, 4, 3].length →
        ∃ d2 q2, dispatcher_service_run (2 * (k + 1)) pc d1 = some (Pc.check, d2) ∧
          d2.log = dispatcher_demo.log ++ ([3, 5, 4, 3].take (k + 1)).map (fun n =>
            if dispatcher_demo.handlers n ≠ NULL then
              Event.invoke n (dispatcher_demo.handlers n)
            else Event.warn n) ∧
          d2.handlers = dispatcher_demo.handlers ∧ d2.queue = some q2 ∧
          q2.contents = [3, 5, 4, 3].drop (k + 1) :=
  ⟨rfl, dispatcher_fifo_order dispatcher_demo (ringbuffer_create 1024) [3, 5, 4, 3] rfl
    (ringbuffer_create_wf 1024 (by decide)) rfl rfl (by decide) (by decide)⟩

/-- Two dispatcher states with the same four fields are the same state. -/
theorem dispatcher_eq (a b : Dispatcher) (hq : a.queue = b.queue)
    (hh : a.handlers = b.handlers) (hs : a.spawned = b.spawned) (hl : a.log = b.log) :
    a = b := by
  cases a
  cases b
  simp_all

/-- One round of the loop of `dispatcher_unregister_handler`, read at slot `j`. -/
theorem unregister_at_apply (handler : Handler) (t : Nat → Handler) (i j : Nat) :
    unregister_at handler t i j = if j = i ∧ t i = handler then NULL else t j := by
  unfold unregister_at
  by_cases h : t i = handler
  · by_cases hj : j = i
    · subst hj; simp [h]
    · simp [h, hj, Function.update_noteq hj]
  · simp [h]

/-- What the loop of `dispatcher_unregister_handler` leaves in slot `i` after its
first `n` rounds. -/
theorem unregister_fold (handler : Handler) (n : Nat) :
    ∀ (t : Nat → Handler) (i : Nat),
      (List.range n).foldl (unregister_at handler) t i =
        if i < n ∧ t i = handler then NULL else t i := by
  induction n with
  | zero => intro t i; simp
  | succ n ih =>
    intro t i
    rw [List.range_succ, List.foldl_append, List.foldl_cons, List.foldl_nil,
      unregister_at_apply, ih, ih]
    by_cases ht : t i = handler
    · by_cases hi : i = n
      · subst hi; simp [ht]
      · by_cases h1 : i < n
        · simp [ht, hi, h1, Nat.lt_succ_of_lt h1]
        · have h2 : ¬ i < n + 1 := by omega
          simp [hi, h1, h2]
    · by_cases hi : i = n
      · subst hi; simp [ht]
      · simp [ht, hi]

/-- Slot by slot, what `dispatcher_unregister_handler` leaves in the table. -/
theorem unregister_slot (d : Dispatcher) (handler : Handler) (i : Nat) :
    (dispatcher_unregister_handler d handler).handlers i =
      if i < 255 ∧ d.handlers i = handler then NULL else d.handlers i := by
  simp only [dispatcher_unregister_handler]
  rw [unregister_fold]

/-- One whole round of `dispatcher_service` on a queue whose oldest number is
`interrupt`, entered at the emptiness test or resumed from `task_block`: the
number is popped and handled, and the task is back at the top of the loop. -/
theorem service_round (d : Dispatcher) (q q' : RingBuffer) (interrupt : Nat) (pc : Pc)
    (hq : d.queue = some q) (hget : ringbuffer_getc q = some (interrupt, q'))
    (hn : interrupt < 255) (hpc : pc = Pc.check ∨ pc = Pc.blocked) :
    dispatcher_service_run 2 pc d =
      some (Pc.check,
        { d with
          queue := some q'
          log := d.log ++ [dispatcher_handle d.handlers interrupt] }) := by
  have hne : ringbuffer_is_empty q = false := by
    by_cases h : ringbuffer_is_empty q = true
    · simp [ringbuffer_getc, h] at hget
    · simpa using h
  rcases hpc with rfl | rfl
  · simp [dispatcher_service_run, dispatcher_service_step, hq, hne, hget, hn]
  · simp [dispatcher_service_run, dispatcher_service_step, dispatcher_can_unblock, task_block,
      hq, hne, hget, hn]

/-- C6: registering a handler `h` for a number `n` in 0..254 whose slot is null
succeeds; the table then maps `n` to `h` and every other slot is as before
(queue and log too). In every later state with that table, a round of the
dispatcher task that pops `n`, entered at the emptiness test or resumed from
`task_block`, calls `h` once and logs no warning; and what is done for every
other number is what was done before the registration. -/
theorem register_handler_takes_effect (d : Dispatcher) (n : Nat) (h : Handler)
    (hn : n < 255) (hslot : d.handlers n = NULL) (hh : h ≠ NULL) :
    ∃ d', dispatcher_register_handler d n h = Outcome.ok d' ∧
      d'.handlers n = h ∧ (∀ m, m ≠ n → d'.handlers m = d.handlers m) ∧
      d'.queue = d.queue ∧ d'.log = d.log ∧
      (∀ (e : Dispatcher) (q q' : RingBuffer) (pc : Pc),
        e.handlers = d'.handlers → e.queue = some q → ringbuffer_getc q = some (n, q') →
        pc = Pc.check ∨ pc = Pc.blocked →
        dispatcher_service_run 2 pc e =
          some (Pc.check, { e with queue := some q', log := e.log ++ [Event.invoke n h] })) ∧
      (∀ m, m ≠ n → dispatcher_handle d'.handlers m = dispatcher_handle d.handlers m) := by
  refine ⟨{ d with handlers := Function.update d.handlers n h }, ?_, ?_, ?_, rfl, rfl, ?_, ?_⟩
  · simp [dispatcher_register_handler, hn, hslot]
  · simp
  · intro m hm
    simp [Function.update_noteq hm]
  · intro e q q' pc he hq hget hpc
    rw [service_round e q q' n pc hq hget hn hpc]
    have : dispatcher_handle e.handlers n = Event.invoke n h := by
      simp [dispatcher_handle, he, hh]
    rw [this]
  · intro m hm
    simp [dispatcher_handle, Function.update_noteq hm]

/-- C6 at a concrete input: handler `11` registered for number `4`, then the
round that pops `4`. -/
theorem register_handler_takes_effect_witness :
    ∃ d', dispatcher_register_handler dispatcher_demo 4 11 = Outcome.ok d' ∧
      d'.handlers 4 = 11 ∧ (∀ m, m ≠ 4 → d'.handlers m = dispatcher_demo.handlers m) ∧
      d'.queue = dispatcher_demo.queue ∧ d'.log = dispatcher_demo.log ∧
      (∀ (e : Dispatcher) (q q' : RingBuffer) (pc : Pc),
        e.handlers = d'.handlers → e.queue = some q → ringbuffer_getc q = some (4, q') →
        pc = Pc.check ∨ pc = Pc.blocked →
        dispatcher_service_run 2 pc e =
          some (Pc.check, { e with queue := some q', log := e.log ++ [Event.invoke 4 11] })) ∧
      (∀ m, m ≠ 4 →
        dispatcher_handle d'.handlers m = dispatcher_handle dispatcher_demo.handlers m) :=
  register_handler_takes_effect dispatcher_demo 4 11 (by decide) rfl (by decide)

/-- C7: once `dispatcher_register_handler(n, h1)` has succeeded, a second
registration for `n`, with any handler `h2`, fails its assertion, in a state
that is the one the first registration left: slot `n` still holds `h1`. -/
theorem register_handler_twice_fatal (d d1 : Dispatcher) (n : Nat) (h1 h2 : Handler)
    (hh : h1 ≠ NULL) (hok : dispatcher_register_handler d n h1 = Outcome.ok d1) :
    dispatcher_register_handler d1 n h2 = Outcome.fatal d1 ∧ d1.handlers n = h1 ∧ n < 255 := by
  unfold dispatcher_register_handler at hok
  by_cases hn : n < 255
  · by_cases hslot : d.handlers n ≠ NULL
    · simp [hn, hslot] at hok
    · simp only [hn, hslot, if_true, if_false, Outcome.ok.injEq] at hok
      subst hok
      simp [dispatcher_register_handler, hn, hh]
  · simp [hn] at hok

/-- C7 at a concrete input: handler `11`, then handler `12`, for number `4`. -/
theorem register_handler_twice_fatal_witness :
    dispatcher_register_handler
        { dispatcher_demo with handlers := Function.update dispatcher_demo.handlers 4 11 } 4 12 =
      Outcome.fatal
        { dispatcher_demo with handlers := Function.update dispatcher_demo.handlers 4 11 } ∧
      Function.update dispatcher_demo.handlers 4 11 4 = 11 ∧ 4 < 255 :=
  register_handler_twice_fatal dispatcher_demo
    { dispatcher_demo with handlers := Function.update dispatcher_demo.handlers 4 11 } 4 11 12
    (by decide) rfl

/-- C8: after `dispatcher_unregister_handler(h)` every one of the 255 slots that
held `h` is null and every slot that held something else (another handler, or
null) is as before, whatever the number of slots that held `h`; the queue and the
log are not touched. -/
theorem unregister_handler_clears (d : Dispatcher) (h : Handler) :
    (∀ i, i < 255 → d.handlers i = h → (dispatcher_unregister_handler d h).handlers i = NULL) ∧
    (∀ i, d.handlers i ≠ h → (dispatcher_unregister_handler d h).handlers i = d.handlers i) ∧
    (dispatcher_unregister_handler d h).queue = d.queue ∧
    (dispatcher_unregister_handler d h).log = d.log := by
  refine ⟨?_, ?_, by simp only [dispatcher_unregister_handler],
    by simp only [dispatcher_unregister_handler]⟩
  · intro i hi hs
    rw [unregister_slot]
    simp [hi, hs]
  · intro i hs
    rw [unregister_slot]
    simp [hs]

/-- C9: `dispatcher_unregister_handler` is idempotent. Unregistering `h` when none
of the 255 slots holds it leaves the state as it is, and unregistering `h` a
second time leaves the state as the first unregistration left it. -/
theorem unregister_handler_idempotent (d : Dispatcher) (h : Handler) :
    ((∀ i, i < 255 → d.handlers i ≠ h) → dispatcher_unregister_handler d h = d) ∧
    dispatcher_unregister_handler (dispatcher_unregister_handler d h) h =
      dispatcher_unregister_handler d h := by
  have key : ∀ e : Dispatcher,
      (∀ i, (dispatcher_unregister_handler e h).handlers i = e.handlers i) →
      dispatcher_unregister_handler e h = e := by
    intro e he
    exact dispatcher_eq _ _ (by simp only [dispatcher_unregister_handler]) (funext he)
      (by simp only [dispatcher_unregister_handler])
      (by simp only [dispatcher_unregister_handler])
  refine ⟨fun hfree => key d ?_, key _ ?_⟩
  · intro i
    rw [unregister_slot]
    by_cases hi : i < 255
    · simp [hfree i hi]
    · simp [hi]
  · intro i
    rw [unregister_slot, unregister_slot]
    by_cases hc : i < 255 ∧ d.handlers i = h
    · simp only [hc, and_self, if_true, ite_self]
    · rw [if_neg hc, if_neg hc]

/-- C10: a round of the dispatcher task that pops a number `n` in 0..254 whose slot
is null, entered at the emptiness test or resumed from `task_block`: the log
grows by the one warning that names `n` and by nothing else (no handler is
called), the table is as before, the number is off the queue, and the task is
back at the top of its loop, from where its next move is defined. -/
theorem service_without_handler (d : Dispatcher) (q q' : RingBuffer) (n : Nat) (pc : Pc)
    (hq : d.queue = some q) (hget : ringbuffer_getc q = some (n, q')) (hn : n < 255)
    (hslot : d.handlers n = NULL) (hpc : pc = Pc.check ∨ pc = Pc.blocked) :
    ∃ d', dispatcher_service_run 2 pc d = some (Pc.check, d') ∧
      d'.log = d.log ++ [Event.warn n] ∧ d'.handlers = d.handlers ∧ d'.queue = some q' ∧
      (dispatcher_service_step Pc.check d').isSome = true := by
  refine ⟨_, service_round d q q' n pc hq hget hn hpc, ?_, rfl, rfl, ?_⟩
  · simp [dispatcher_handle, hslot]
  · simp only [dispatcher_service_step]
    split <;> simp

/-- C10 at a concrete input: number `4`, which has no handler in `table_demo`. -/
theorem service_without_handler_witness :
    ringbuffer_getc queue_demo = some (4, queue_demo_popped) ∧
    ∃ d', dispatcher_service_run 2 Pc.check dispatcher_demo_queued = some (Pc.check, d') ∧
      d'.log = dispatcher_demo_queued.log ++ [Event.warn 4] ∧
      d'.handlers = dispatcher_demo_queued.handlers ∧ d'.queue = some queue_demo_popped ∧
      (dispatcher_service_step Pc.check d').isSome = true :=
  ⟨rfl, service_without_handler dispatcher_demo_queued queue_demo queue_demo_popped 4 Pc.check
    rfl rfl (by decide) rfl (Or.inl rfl)⟩

/-! ## Facts about the event loop -/

theorem registered_append (as bs : List Action) :
    registered (as ++ bs) = registered as ++ registered bs := by
  induction as with
  | nil => rfl
  | cons a as ih => cases a <;> simp [registered, ih]

theorem exits_append (as bs : List Action) : exits (as ++ bs) = exits as ++ exits bs := by
  induction as with
  | nil => rfl
  | cons a as ih => cases a <;> simp [exits, ih]

/-- A sequence that ran to its end: its first part ran to its end, and the second
part ran to its end from there. -/
theorem bind_eq_ok {σ α β : Type} {o : Outcome σ α} {f : α → Outcome σ β} {b : β}
    (h : o.bind f = Outcome.ok b) : ∃ a, o = Outcome.ok a ∧ f a = Outcome.ok b := by
  cases o with
  | ok a => exact ⟨a, rfl, h⟩
  | fatal s => simp [Outcome.bind] at h
  | undefined => simp [Outcome.bind] at h
  | timeout => simp [Outcome.bind] at h

/-- Code that does nothing. -/
theorem Effect.refl (w : World) (s : EventLoop) (hinit : s.is_initialize = true) :
    Effect w s s [] [] :=
  ⟨hinit, by simp, by simp [registered], by simp [registered], fun _ => rfl,
    Or.inl ⟨rfl, rfl, rfl⟩⟩

/-- Two pieces of code one after the other. -/
theorem Effect.trans {w : World} {s s1 s2 : EventLoop} {tr1 tr2 : List LoopEvent}
    {as1 as2 : List Action} (h1 : Effect w s s1 tr1 as1) (h2 : Effect w s1 s2 tr2 as2) :
    Effect w s s2 (tr1 ++ tr2) (as1 ++ as2) := by
  refine ⟨h2.init, ?_, ?_, ?_, ?_, ?_⟩
  · rw [h2.log, h1.log, List.append_assoc]
  · rw [h2.notifiers, h1.notifiers, registered_append, List.append_assoc]
  · intro hne
    by_cases h : registered as2 = []
    · have hne1 : registered as1 ≠ [] := by
        intro h'
        exact hne (by rw [registered_append, h', h]; rfl)
      have hs := h1.sync hne1
      unfold in_sync at hs ⊢
      rw [h2.args h, hs, h2.notifiers, h, List.append_nil]
    · exact h2.sync h
  · intro hnil
    rw [registered_append, List.append_eq_nil] at hnil
    rw [h2.args hnil.2, h1.args hnil.1]
  · rw [exits_append]
    rcases h1.exit with ⟨e1, r1, v1⟩ | ⟨c1, e1, r1, r1', v1⟩
    · rcases h2.exit with ⟨e2, r2, v2⟩ | ⟨c2, e2, r2, r2', v2⟩
      · exact Or.inl ⟨by rw [e1, e2]; rfl, r2.trans r1, v2.trans v1⟩
      · exact Or.inr ⟨c2, by rw [e1, e2]; rfl, r1 ▸ r2, r2', v2⟩
    · rcases h2.exit with ⟨e2, r2, v2⟩ | ⟨c2, e2, r2, r2', v2⟩
      · exact Or.inr ⟨c1, by rw [e1, e2]; rfl, r1, r2.trans r1', v2.trans v1⟩
      · rw [r1'] at r2
        exact absurd r2 (by decide)

/-- One round of the loop of `eventloop_update_notifier` puts one pair behind the
arguments of the wait call. -/
theorem wait_args_store (s : EventLoop) (h : Handle) (e : Nat) :
    wait_args
        { s with
          handles := Function.update s.handles s.handles_count h
          events := Function.update s.events s.handles_count e
          handles_count := s.handles_count + 1 } =
      wait_args s ++ [(h, e)] := by
  simp only [wait_args, List.range_succ, List.map_append, List.map_singleton,
    Function.update_same]
  congr 1
  apply List.map_congr_left
  intro i hi
  have hne : i ≠ s.handles_count := Nat.ne_of_lt (List.mem_range.mp hi)
  rw [Function.update_noteq hne, Function.update_noteq hne]

/-- What the loop of `eventloop_update_notifier` does when it runs to its end. -/
theorem update_loop_ok (w : World) (ps : List NotifierPtr) :
    ∀ s s' : EventLoop, eventloop_update_loop w ps s = Outcome.ok s' →
      s'.notifiers = s.notifiers ∧ s'.log = s.log ∧ s'.is_running = s.is_running ∧
        s'.is_initialize = s.is_initialize ∧ s'.exit_value = s.exit_value ∧
        wait_args s' = wait_args s ++ ps.map (wait_entry w) := by
  induction ps with
  | nil =>
    intro s s' h
    simp only [eventloop_update_loop, Outcome.ok.injEq] at h
    subst h
    simp
  | cons p ps ih =>
    intro s s' h
    simp only [eventloop_update_loop] at h
    by_cases hc : s.handles_count < w.PROCESS_HANDLE_COUNT
    · rw [if_pos hc] at h
      obtain ⟨h1, h2, h3, h4, h5, h6⟩ := ih _ _ h
      refine ⟨h1, h2, h3, h4, h5, ?_⟩
      rw [h6, wait_args_store, List.map_cons, List.append_assoc, List.singleton_append]
      rfl
    · rw [if_neg hc] at h
      cases h

/-- The loop of `eventloop_update_notifier` runs to its end when the entries it
adds fit in the arrays. -/
theorem update_loop_total (w : World) (ps : List NotifierPtr) :
    ∀ s : EventLoop, s.handles_count + ps.length ≤ w.PROCESS_HANDLE_COUNT →
      ∃ s', eventloop_update_loop w ps s = Outcome.ok s' := by
  induction ps with
  | nil => intro s _; exact ⟨s, rfl⟩
  | cons p ps ih =>
    intro s h
    simp only [List.length_cons] at h
    simp only [eventloop_update_loop]
    rw [if_pos (by omega)]
    exact ih _ (by simp only; omega)

/-- What `eventloop_register_notifier` does when it runs to its end. -/
theorem register_effect (w : World) (p : NotifierPtr) (s s' : EventLoop)
    (h : eventloop_register_notifier w p s = Outcome.ok s') :
    Effect w s s' [] [Action.register p] := by
  unfold eventloop_register_notifier at h
  by_cases hi : s.is_initialize = true
  · simp only [hi, Bool.not_true, Bool.false_eq_true, if_false, eventloop_update_notifier,
      list_pushback] at h
    obtain ⟨h1, h2, h3, h4, h5, h6⟩ := update_loop_ok w _ _ _ h
    have hsync : in_sync w s' := by
      unfold in_sync
      rw [h6, h1]
      simp [wait_args]
    refine ⟨h4, by simpa using h2, by simpa [registered] using h1, fun _ => hsync,
      ?_, Or.inl ⟨rfl, h3, h5⟩⟩
    intro hnil
    simp [registered] at hnil
  · simp [hi] at h

/-- What `eventloop_exit` does when it runs to its end. -/
theorem exit_effect (w : World) (c : Int) (s s' : EventLoop)
    (h : eventloop_exit c s = Outcome.ok s') : Effect w s s' [] [Action.exit c] := by
  unfold eventloop_exit at h
  by_cases hi : s.is_initialize = true
  · by_cases hr : s.is_running = true
    · simp only [hi, hr, Bool.not_true, Bool.false_eq_true, if_false, Outcome.ok.injEq] at h
      subst h
      exact ⟨rfl, by simp, by simp [registered], by simp [registered], fun _ => rfl,
        Or.inr ⟨c, rfl, hr, rfl, rfl⟩⟩
    · simp [hi, hr] at h
  · simp [hi] at h

/-- What the calls of a callback into the loop do when they all run to their
end. -/
theorem acts_effect (w : World) (as : List Action) :
    ∀ s s' : EventLoop, s.is_initialize = true → eventloop_acts w as s = Outcome.ok s' →
      Effect w s s' [] as := by
  induction as with
  | nil =>
    intro s s' hi h
    simp only [eventloop_acts, Outcome.ok.injEq] at h
    subst h
    exact Effect.refl w s hi
  | cons a as ih =>
    intro s s' hi h
    simp only [eventloop_acts] at h
    obtain ⟨s1, h1, h2⟩ := bind_eq_ok h
    have e1 : Effect w s s1 [] [a] := by
      cases a with
      | register p => exact register_effect w p s s1 h1
      | exit c => exact exit_effect w c s s1 h1
    exact e1.trans (ih s1 s' e1.init h2)

/-- What one `if` of the body of the pump loop does when it runs to its end. -/
theorem fire_effect (w : World) (ev : Nat) (k : SelectKind) (fn : Callback) (p : NotifierPtr)
    (s s' : EventLoop) (hi : s.is_initialize = true)
    (h : eventloop_fire w ev k fn p s = Outcome.ok s') :
    Effect w s s' (fire_calls w ev k fn p) ((fire_calls w ev k fn p).flatMap (actions_of w)) := by
  unfold eventloop_fire at h
  unfold fire_calls
  by_cases hc : ev &&& w.SELECT k ≠ 0 ∧ fn ≠ NULL
  · rw [if_pos hc] at h
    rw [if_pos hc]
    unfold eventloop_call at h
    have e0 : Effect w s
        { s with log := s.log ++ [LoopEvent.call k fn p (w.notifier p).handle] }
        [LoopEvent.call k fn p (w.notifier p).handle] [] :=
      ⟨hi, rfl, by simp [registered], by simp [registered], fun _ => rfl,
        Or.inl ⟨rfl, rfl, rfl⟩⟩
    have e1 := e0.trans (acts_effect w _ _ _ hi h)
    simpa [actions_of] using e1
  · rw [if_neg hc] at h
    rw [if_neg hc]
    simp only [Outcome.ok.injEq] at h
    subst h
    exact Effect.refl w s hi

/-- The test `selected_events & SELECT_X` of the pump succeeds exactly when the
bit of `X` is set in `selected_events`. -/
theorem select_bit (w : World) (ev : Nat) (k : SelectKind) :
    ev &&& w.SELECT k ≠ 0 ↔ ev.testBit (w.bit k) = true := by
  unfold World.SELECT
  rw [Nat.one_shiftLeft, Nat.and_two_pow]
  cases h : ev.testBit (w.bit k)
  · simp
  · simp

/-- A filter followed by a map, one item at a time. -/
theorem filter_map_eq_flatMap {α β : Type} (c : α → Bool) (f : α → β) (l : List α) :
    (l.filter c).map f = l.flatMap fun a => if c a = true then [f a] else [] := by
  induction l with
  | nil => rfl
  | cons a l ih =>
    by_cases h : c a = true
    · simp [List.filter_cons, h, ih]
    · simp [List.filter_cons, h, ih]

/-- The calls that the spec gives for one notifier are what the six `if`
statements of the pump call, one after the other. -/
theorem expected_calls_of_eq (w : World) (ev : Nat) (p : NotifierPtr) :
    expected_calls_of w ev p =
      fire_calls w ev SelectKind.READ (w.notifier p).on_ready_to_read p ++
      (fire_calls w ev SelectKind.WRITE (w.notifier p).on_ready_to_write p ++
      (fire_calls w ev SelectKind.SEND (w.notifier p).on_ready_to_send p ++
      (fire_calls w ev SelectKind.RECEIVE (w.notifier p).on_ready_to_receive p ++
      (fire_calls w ev SelectKind.CONNECT (w.notifier p).on_ready_to_connect p ++
      fire_calls w ev SelectKind.ACCEPT (w.notifier p).on_ready_to_accept p)))) := by
  have key : ∀ k, (if (ev.testBit (w.bit k) &&
        decide ((w.notifier p).callback k ≠ NULL)) = true then
          [LoopEvent.call k ((w.notifier p).callback k) p (w.notifier p).handle] else []) =
      fire_calls w ev k ((w.notifier p).callback k) p := by
    intro k
    unfold fire_calls
    by_cases hb : ev.testBit (w.bit k) = true
    · by_cases hf : (w.notifier p).callback k ≠ NULL
      · rw [if_pos (by simp [hb, hf]), if_pos ⟨(select_bit w ev k).mpr hb, hf⟩]
      · rw [if_neg (by simp [hf]), if_neg (fun h => hf h.2)]
    · rw [if_neg (by simp [hb]), if_neg (fun h => hb ((select_bit w ev k).mp h.1))]
  unfold expected_calls_of
  rw [filter_map_eq_flatMap]
  simp only [List.flatMap_cons, List.flatMap_nil, List.append_nil, key]
  rfl

/-- What the body of the pump loop does for one notifier when it runs to its
end. -/
theorem pump_notifier_effect (w : World) (sel : Handle) (ev : Nat) (p : NotifierPtr)
    (s s' : EventLoop) (hi : s.is_initialize = true)
    (h : eventloop_pump_notifier w sel ev p s = Outcome.ok s') :
    Effect w s s' (calls_for w sel ev p) ((calls_for w sel ev p).flatMap (actions_of w)) := by
  unfold eventloop_pump_notifier at h
  unfold calls_for
  by_cases hh : (w.notifier p).handle = sel
  · rw [if_pos hh] at h
    rw [if_pos hh, expected_calls_of_eq]
    obtain ⟨s5, h5, h6⟩ := bind_eq_ok h
    obtain ⟨s4, h4, h5⟩ := bind_eq_ok h5
    obtain ⟨s3, h3, h4⟩ := bind_eq_ok h4
    obtain ⟨s2, h2, h3⟩ := bind_eq_ok h3
    obtain ⟨s1, h1, h2⟩ := bind_eq_ok h2
    have e1 := fire_effect w ev _ _ p s s1 hi h1
    have e2 := fire_effect w ev _ _ p s1 s2 e1.init h2
    have e3 := fire_effect w ev _ _ p s2 s3 e2.init h3
    have e4 := fire_effect w ev _ _ p s3 s4 e3.init h4
    have e5 := fire_effect w ev _ _ p s4 s5 e4.init h5
    have e6 := fire_effect w ev _ _ p s5 s' e5.init h6
    have e := e1.trans (e2.trans (e3.trans (e4.trans (e5.trans e6))))
    simpa only [List.flatMap_append] using e
  · rw [if_neg hh] at h
    rw [if_neg hh]
    simp only [Outcome.ok.injEq] at h
    subst h
    exact Effect.refl w s hi

/-- The calls that the spec gives for one pump, notifier by notifier. -/
theorem expected_calls_eq (w : World) (l : List NotifierPtr) (sel : Handle) (ev : Nat) :
    expected_calls w l sel ev = l.flatMap (calls_for w sel ev) := by
  unfold expected_calls
  induction l with
  | nil => rfl
  | cons p l ih =>
    by_cases h : (w.notifier p).handle = sel
    · simp [List.filter_cons, h, calls_for, ih]
    · simp [List.filter_cons, h, calls_for, ih]

/-- An item found at position `i` of a list heads what is left of the list from
position `i` on, also after the list has grown at its end. -/
theorem drop_of_getElem? {α : Type} (l r : List α) (i : Nat) (a : α) (h : l[i]? = some a) :
    (l ++ r).drop i = a :: (l ++ r).drop (i + 1) := by
  obtain ⟨hlt, ha⟩ := List.getElem?_eq_some.mp h
  have hlt' : i < (l ++ r).length := by
    rw [List.length_append]; omega
  rw [List.drop_eq_getElem_cons hlt', List.getElem_append_left hlt, ha]

/-- What the loop of `eventloop_pump` does when it runs to its end from position
`i` of the items it was entered with: it makes the calls that the spec gives for
the items from position `i` on. -/
theorem pump_loop_effect (w : World) (sel : Handle) (ev : Nat) (items : List NotifierPtr) :
    ∀ (fuel i : Nat) (s s' : EventLoop), s.is_initialize = true →
      eventloop_pump_loop w sel ev items fuel i s = Outcome.ok s' →
      Effect w s s' (expected_calls w (items.drop i) sel ev)
        ((expected_calls w (items.drop i) sel ev).flatMap (actions_of w)) := by
  intro fuel
  induction fuel with
  | zero =>
    intro i s s' _ h
    simp [eventloop_pump_loop] at h
  | succ fuel ih =>
    intro i s s' hi h
    simp only [eventloop_pump_loop, list_foreach_item] at h
    cases hp : items[i]? with
    | none =>
      simp only [hp, Outcome.ok.injEq] at h
      subst h
      have hlen : items.length ≤ i := List.getElem?_eq_none_iff.mp hp
      rw [List.drop_eq_nil_of_le hlen]
      exact Effect.refl w s hi
    | some p =>
      simp only [hp] at h
      obtain ⟨s1, h1, h2⟩ := bind_eq_ok h
      have e1 := pump_notifier_effect w sel ev p s s1 hi h1
      have e2 := ih (i + 1) s1 s' e1.init h2
      have e := e1.trans e2
      have hn : items.drop i = p :: items.drop (i + 1) := by
        have := drop_of_getElem? items [] i p hp
        simpa using this
      rw [hn, expected_calls_eq w (p :: _), List.flatMap_cons, ← expected_calls_eq,
        List.flatMap_append]
      exact e

/-- Each exit that ran used up the one exit that a running loop allows. -/
theorem Effect.budget {w : World} {s s' : EventLoop} {tr : List LoopEvent} {as : List Action}
    (e : Effect w s s' tr as) : exit_budget s' + (exits as).length = exit_budget s := by
  unfold exit_budget
  rcases e.exit with ⟨e1, r1, _⟩ | ⟨c, e1, r1, r1', _⟩
  · rw [e1, r1]; rfl
  · rw [e1, r1, r1']; rfl

/-- Callbacks that register nothing: no call they make registers a notifier. -/
theorem quiet_registered (w : World) (hq : w.quiet) (tr : List LoopEvent) :
    registered (tr.flatMap (actions_of w)) = [] := by
  induction tr with
  | nil => rfl
  | cons e tr ih =>
    rw [List.flatMap_cons, registered_append, ih, List.append_nil]
    cases e with
    | select args => rfl
    | error r => rfl
    | call k fn p h => exact hq fn p h

/-- The collection grows by the number of notifiers registered. -/
theorem Effect.length {w : World} {s s' : EventLoop} {tr : List LoopEvent} {as : List Action}
    (e : Effect w s s' tr as) :
    s'.notifiers.length = s.notifiers.length + (registered as).length := by
  rw [e.notifiers, List.length_append]

/-- Callbacks that register nothing have room, whatever the arrays. -/
theorem quiet_room (w : World) (hq : w.quiet) (s : EventLoop) (tr : List LoopEvent) :
    room w s (tr.flatMap (actions_of w)) := by
  unfold room
  rw [quiet_registered w hq]
  exact Or.inl rfl

/-- Calls into the loop that have room for what they register and ask for no more
exits than the loop allows all run to their end. -/
theorem acts_total (w : World) (as : List Action) :
    ∀ s : EventLoop, s.is_initialize = true → room w s as →
      (exits as).length ≤ exit_budget s → ∃ s', eventloop_acts w as s = Outcome.ok s' := by
  induction as with
  | nil => intro s _ _ _; exact ⟨s, rfl⟩
  | cons a as ih =>
    intro s hi hr hb
    unfold room at hr
    cases a with
    | register p =>
      simp only [registered, List.length_cons, exits] at hr hb
      have hreg : eventloop_register_notifier w p s =
          eventloop_update_notifier w { s with notifiers := list_pushback s.notifiers p } := by
        unfold eventloop_register_notifier
        rw [if_neg (by simp [hi])]
      obtain ⟨s1, h1⟩ : ∃ s1, eventloop_register_notifier w p s = Outcome.ok s1 := by
        rw [hreg]
        exact update_loop_total w _ _ (by simp [list_pushback]; omega)
      have e1 := register_effect w p s s1 h1
      have hl := e1.length
      have hb1 := e1.budget
      simp only [registered, exits, List.length_cons, List.length_nil] at hl hb1
      obtain ⟨s', h2⟩ := ih s1 e1.init (by unfold room; omega) (by omega)
      exact ⟨s', by simp only [eventloop_acts, eventloop_act, h1, Outcome.bind]; exact h2⟩
    | exit c =>
      simp only [registered, exits, List.length_cons] at hr hb
      have hrun : s.is_running = true := by
        unfold exit_budget at hb
        by_cases h : s.is_running = true
        · exact h
        · simp [h] at hb
      have h1 : eventloop_exit c s =
          Outcome.ok { s with is_running := false, exit_value := c } := by
        simp [eventloop_exit, hi, hrun]
      have hb' : (exits as).length ≤
          exit_budget { s with is_running := false, exit_value := c } := by
        have := (exit_effect w c s _ h1).budget
        simp only [exits, List.length_cons, List.length_nil] at this
        omega
      obtain ⟨s', h2⟩ := ih { s with is_running := false, exit_value := c } hi hr hb'
      exact ⟨s', by simp only [eventloop_acts, eventloop_act, h1, Outcome.bind]; exact h2⟩

/-- One `if` of the body of the pump loop runs to its end when its callback has
room for what it registers and asks for no more exits than the loop allows. -/
theorem fire_total (w : World) (ev : Nat) (k : SelectKind) (fn : Callback)
    (p : NotifierPtr) (s : EventLoop) (hi : s.is_initialize = true)
    (hr : room w s ((fire_calls w ev k fn p).flatMap (actions_of w)))
    (hb : (exits ((fire_calls w ev k fn p).flatMap (actions_of w))).length ≤ exit_budget s) :
    ∃ s', eventloop_fire w ev k fn p s = Outcome.ok s' := by
  unfold eventloop_fire
  unfold fire_calls at hb hr
  by_cases hc : ev &&& w.SELECT k ≠ 0 ∧ fn ≠ NULL
  · rw [if_pos hc] at hb hr
    rw [if_pos hc]
    unfold eventloop_call
    refine acts_total w _ _ hi ?_ ?_
    · simpa [actions_of, room] using hr
    · simpa [actions_of, exit_budget] using hb
  · rw [if_neg hc]
    exact ⟨s, rfl⟩

/-- The body of the pump loop runs to its end for a notifier whose callbacks have
room for what they register and ask for no more exits than the loop allows. -/
theorem pump_notifier_total (w : World) (sel : Handle) (ev : Nat)
    (p : NotifierPtr) (s : EventLoop) (hi : s.is_initialize = true)
    (hr : room w s ((calls_for w sel ev p).flatMap (actions_of w)))
    (hb : (exits ((calls_for w sel ev p).flatMap (actions_of w))).length ≤ exit_budget s) :
    ∃ s', eventloop_pump_notifier w sel ev p s = Outcome.ok s' := by
  unfold eventloop_pump_notifier
  unfold calls_for at hb hr
  by_cases hh : (w.notifier p).handle = sel
  · rw [if_pos hh] at hb hr
    rw [if_pos hh]
    unfold room at hr
    simp only [expected_calls_of_eq, List.flatMap_append, exits_append, registered_append,
      List.length_append] at hb hr
    obtain ⟨s1, h1⟩ := fire_total w ev SelectKind.READ (w.notifier p).on_ready_to_read p s hi
      (by unfold room; omega) (by omega)
    have e1 := fire_effect w ev _ _ p s s1 hi h1
    have b1 := e1.budget
    have l1 := e1.length
    obtain ⟨s2, h2⟩ := fire_total w ev SelectKind.WRITE (w.notifier p).on_ready_to_write p
      s1 e1.init (by unfold room; omega) (by omega)
    have e2 := fire_effect w ev _ _ p s1 s2 e1.init h2
    have b2 := e2.budget
    have l2 := e2.length
    obtain ⟨s3, h3⟩ := fire_total w ev SelectKind.SEND (w.notifier p).on_ready_to_send p
      s2 e2.init (by unfold room; omega) (by omega)
    have e3 := fire_effect w ev _ _ p s2 s3 e2.init h3
    have b3 := e3.budget
    have l3 := e3.length
    obtain ⟨s4, h4⟩ := fire_total w ev SelectKind.RECEIVE (w.notifier p).on_ready_to_receive
      p s3 e3.init (by unfold room; omega) (by omega)
    have e4 := fire_effect w ev _ _ p s3 s4 e3.init h4
    have b4 := e4.budget
    have l4 := e4.length
    obtain ⟨s5, h5⟩ := fire_total w ev SelectKind.CONNECT (w.notifier p).on_ready_to_connect
      p s4 e4.init (by unfold room; omega) (by omega)
    have e5 := fire_effect w ev _ _ p s4 s5 e4.init h5
    have b5 := e5.budget
    have l5 := e5.length
    obtain ⟨s6, h6⟩ := fire_total w ev SelectKind.ACCEPT (w.notifier p).on_ready_to_accept
      p s5 e5.init (by unfold room; omega) (by omega)
    exact ⟨s6, by simp only [h1, h2, h3, h4, h5, h6, Outcome.bind]⟩
  · rw [if_neg hh]
    exact ⟨s, rfl⟩

/-- The loop of `eventloop_pump` runs to its end, given one round of fuel per item
left and one for the end test, when the callbacks to be called have room for
what they register and ask for no more exits than the loop allows. -/
theorem pump_loop_total (w : World) (sel : Handle) (ev : Nat) (items : List NotifierPtr) :
    ∀ (fuel i : Nat) (s : EventLoop), s.is_initialize = true →
      items.length - i < fuel →
      room w s ((expected_calls w (items.drop i) sel ev).flatMap (actions_of w)) →
      (exits ((expected_calls w (items.drop i) sel ev).flatMap (actions_of w))).length ≤
        exit_budget s →
      ∃ s', eventloop_pump_loop w sel ev items fuel i s = Outcome.ok s' := by
  intro fuel
  induction fuel with
  | zero => intro i s _ hf _ _; omega
  | succ fuel ih =>
    intro i s hi hf hr hb
    simp only [eventloop_pump_loop, list_foreach_item]
    cases hp : items[i]? with
    | none => exact ⟨s, rfl⟩
    | some p =>
      have hlt : i < items.length := (List.getElem?_eq_some.mp hp).1
      have hd : items.drop i = p :: items.drop (i + 1) := by
        have := drop_of_getElem? items [] i p hp
        simpa using this
      unfold room at hr
      rw [hd, expected_calls_eq w (p :: _), List.flatMap_cons, ← expected_calls_eq,
        List.flatMap_append] at hb hr
      rw [exits_append, List.length_append] at hb
      rw [registered_append, List.length_append] at hr
      obtain ⟨s1, h1⟩ := pump_notifier_total w sel ev p s hi (by unfold room; omega) (by omega)
      have e1 := pump_notifier_effect w sel ev p s s1 hi h1
      have b1 := e1.budget
      have l1 := e1.length
      obtain ⟨s', h2⟩ := ih (i + 1) s1 e1.init (by omega) (by unfold room; omega) (by omega)
      exact ⟨s', by simp only [h1, Outcome.bind]; exact h2⟩

/-! ## The event loop's contract -/

/-- What a call listed by `expected_calls` is. -/
theorem mem_expected_calls (w : World) (l : List NotifierPtr) (sel : Handle) (ev : Nat)
    (k : SelectKind) (fn : Callback) (p : NotifierPtr) (h : Handle)
    (hm : LoopEvent.call k fn p h ∈ expected_calls w l sel ev) :
    p ∈ l ∧ (w.notifier p).handle = sel ∧ h = sel ∧ ev.testBit (w.bit k) = true ∧
      fn = (w.notifier p).callback k ∧ fn ≠ NULL := by
  unfold expected_calls expected_calls_of at hm
  simp only [List.mem_flatMap, List.mem_filter, List.mem_map, decide_eq_true_eq,
    Bool.and_eq_true] at hm
  obtain ⟨q, ⟨hq, hsel⟩, k', ⟨_, hbit, hfn⟩, heq⟩ := hm
  simp only [LoopEvent.call.injEq] at heq
  obtain ⟨rfl, rfl, rfl, rfl⟩ := heq
  exact ⟨hq, hsel, hsel, hbit, rfl, hfn⟩

/-- A pump of an initialised loop whose wait call succeeds: the wait call is
logged, then the loop over the collection runs from its first position. -/
theorem pump_success (w : World) (fuel : Nat) (r : SelectResult) (s : EventLoop)
    (hinit : s.is_initialize = true) (hres : r.result = ERR_SUCCESS) :
    eventloop_pump w fuel r s =
      eventloop_pump_loop w r.selected r.selected_events s.notifiers fuel 0
        { s with log := s.log ++ [LoopEvent.select (wait_args s)] } := by
  unfold eventloop_pump
  rw [if_neg (by simp [hinit]), if_neg (by simp [hres])]

/-- What a pump whose wait call succeeds does when it runs to its end: it logs the
wait call, then the calls that the spec gives for the collection it was called
on. -/
theorem pump_effect (w : World) (fuel : Nat) (r : SelectResult) (s s' : EventLoop)
    (hinit : s.is_initialize = true) (hres : r.result = ERR_SUCCESS)
    (h : eventloop_pump w fuel r s = Outcome.ok s') :
    Effect w s s'
      (LoopEvent.select (wait_args s) ::
        expected_calls w s.notifiers r.selected r.selected_events)
      ((expected_calls w s.notifiers r.selected r.selected_events).flatMap (actions_of w)) := by
  rw [pump_success w fuel r s hinit hres] at h
  have e0 : Effect w s { s with log := s.log ++ [LoopEvent.select (wait_args s)] }
      [LoopEvent.select (wait_args s)] [] :=
    ⟨hinit, rfl, by simp [registered], by simp [registered], fun _ => rfl,
      Or.inl ⟨rfl, rfl, rfl⟩⟩
  have e := e0.trans
    (pump_loop_effect w r.selected r.selected_events s.notifiers fuel 0 _ s' hinit h)
  simpa using e

/-- A pump whose wait call succeeds runs to its end, given one round of fuel per
registered notifier and one for the end test, when the callbacks to be called
have room for what they register and ask for no more exits than the loop
allows. -/
theorem pump_total (w : World) (s : EventLoop) (r : SelectResult) (fuel : Nat)
    (hinit : s.is_initialize = true) (hres : r.result = ERR_SUCCESS)
    (hroom : room w s
      ((expected_calls w s.notifiers r.selected r.selected_events).flatMap (actions_of w)))
    (hexit : (exits ((expected_calls w s.notifiers r.selected r.selected_events).flatMap
      (actions_of w))).length ≤ exit_budget s)
    (hfuel : s.notifiers.length < fuel) :
    ∃ s', eventloop_pump w fuel r s = Outcome.ok s' := by
  obtain ⟨s', h⟩ := pump_loop_total w r.selected r.selected_events s.notifiers fuel 0
    { s with log := s.log ++ [LoopEvent.select (wait_args s)] } hinit
    (by simpa using hfuel) (by simpa [room] using hroom) (by simpa [exit_budget] using hexit)
  exact ⟨s', by rw [pump_success w fuel r s hinit hres]; exact h⟩

/-- A pump whose callbacks register nothing and trip no assertion runs to its end
and logs the wait call, then the calls that the spec gives. -/
theorem pump_quiet_log (w : World) (s : EventLoop) (r : SelectResult) (fuel : Nat)
    (hinit : s.is_initialize = true) (hres : r.result = ERR_SUCCESS) (hq : w.quiet)
    (hexit : (exits ((expected_calls w s.notifiers r.selected r.selected_events).flatMap
      (actions_of w))).length ≤ exit_budget s)
    (hfuel : s.notifiers.length < fuel) :
    ∃ s', eventloop_pump w fuel r s = Outcome.ok s' ∧
      s'.log = s.log ++ LoopEvent.select (wait_args s) ::
        expected_calls w s.notifiers r.selected r.selected_events ∧
      s'.notifiers = s.notifiers := by
  obtain ⟨s', h⟩ := pump_total w s r fuel hinit hres (quiet_room w hq s _) hexit hfuel
  have e := pump_effect w fuel r s s' hinit hres h
  exact ⟨s', h, e.log, by rw [e.notifiers, quiet_registered w hq, List.append_nil]⟩

/-- C2: the calls of one pump are the reference sequence. Take a loop that is
initialised, a wait call that succeeds with a selected handle and a bitmask, and
callbacks that do not change the collection and do not trip the assertions of
`eventloop_exit` (those to be called ask for at most one exit, and for none
when the loop is not running). With one round of fuel per notifier and one for
the end test, `eventloop_pump` runs to its end, the collection is as before,
and the log grows by the wait call followed by exactly `expected_calls`: for
each registered notifier in registration order whose handle is the selected
one, its non-null callbacks whose bit is set, in the order READ, WRITE, SEND,
RECEIVE, CONNECT, ACCEPT, each with the notifier and its handle. Every call in
that sequence is on a registered notifier bound to the selected handle, through
a callback field that is not null and whose bit is set. -/
theorem eventloop_pump_calls (w : World) (s : EventLoop) (r : SelectResult) (fuel : Nat)
    (hinit : s.is_initialize = true) (hres : r.result = ERR_SUCCESS) (hq : w.quiet)
    (hexit : (exits ((expected_calls w s.notifiers r.selected r.selected_events).flatMap
      (actions_of w))).length ≤ exit_budget s)
    (hfuel : s.notifiers.length < fuel) :
    ∃ s', eventloop_pump w fuel r s = Outcome.ok s' ∧
      s'.log = s.log ++ LoopEvent.select (wait_args s) ::
        expected_calls w s.notifiers r.selected r.selected_events ∧
      s'.notifiers = s.notifiers ∧
      ∀ k fn p h,
        LoopEvent.call k fn p h ∈ expected_calls w s.notifiers r.selected r.selected_events →
        p ∈ s.notifiers ∧ (w.notifier p).handle = r.selected ∧ h = r.selected ∧
          r.selected_events.testBit (w.bit k) = true ∧
          fn = (w.notifier p).callback k ∧ fn ≠ NULL := by
  obtain ⟨s', h1, h2, h3⟩ := pump_quiet_log w s r fuel hinit hres hq hexit hfuel
  exact ⟨s', h1, h2, h3, fun k fn p h => mem_expected_calls w _ _ _ k fn p h⟩

/-- C2 at a concrete input: the loop `loop_demo`, handle 10 selected with READ and
WRITE set. -/
theorem eventloop_pump_calls_witness :
    ∃ s', eventloop_pump world_demo 4 ⟨ERR_SUCCESS, 10, 3⟩ loop_demo = Outcome.ok s' ∧
      s'.log = loop_demo.log ++ LoopEvent.select (wait_args loop_demo) ::
        expected_calls world_demo loop_demo.notifiers 10 3 ∧
      s'.notifiers = loop_demo.notifiers ∧
      ∀ k fn p h,
        LoopEvent.call k fn p h ∈ expected_calls world_demo loop_demo.notifiers 10 3 →
        p ∈ loop_demo.notifiers ∧ (world_demo.notifier p).handle = 10 ∧ h = 10 ∧
          (3 : Nat).testBit (world_demo.bit k) = true ∧
          fn = (world_demo.notifier p).callback k ∧ fn ≠ NULL :=
  eventloop_pump_calls world_demo loop_demo ⟨ERR_SUCCESS, 10, 3⟩ 4 rfl rfl
    (by intro fn p h; simp only [world_demo]; split <;> rfl) (by decide) (by decide)

/-- C3, refuted as stated: two registered notifiers on handle 10, the first with
interest mask READ, the second with interest mask WRITE, and a wait result that
selects handle 10 with READ and WRITE set. The first notifier also carries a write
callback (111), and the pump calls it, between the read callback of the first
notifier and the write callback of the second: three calls, not two. -/
theorem eventloop_fanout_counterexample :
    (world_both.notifier 1).handle = (world_both.notifier 2).handle ∧
    (world_both.notifier 1).events = world_both.SELECT SelectKind.READ ∧
    (world_both.notifier 2).events = world_both.SELECT SelectKind.WRITE ∧
    ∃ s', eventloop_pump world_both 3
        ⟨ERR_SUCCESS, 10,
          world_both.SELECT SelectKind.READ ||| world_both.SELECT SelectKind.WRITE⟩
        loop_both = Outcome.ok s' ∧
      s'.log = [LoopEvent.select [(10, 1), (10, 2)],
        LoopEvent.call SelectKind.READ 101 1 10,
        LoopEvent.call SelectKind.WRITE 111 1 10,
        LoopEvent.call SelectKind.WRITE 102 2 10] :=
  ⟨rfl, rfl, rfl, _, rfl, rfl⟩

/-- With one bit per event, the test of event `k` against a bitmask with the READ
and WRITE bits set succeeds for READ and WRITE only. -/
theorem select_read_write (w : World) (hbits : Function.Injective w.bit) (k : SelectKind) :
    (w.SELECT SelectKind.READ ||| w.SELECT SelectKind.WRITE) &&& w.SELECT k ≠ 0 ↔
      k = SelectKind.READ ∨ k = SelectKind.WRITE := by
  rw [select_bit]
  simp only [World.SELECT, Nat.one_shiftLeft, Nat.testBit_or, Nat.testBit_two_pow,
    Bool.or_eq_true, decide_eq_true_eq, hbits.eq_iff]
  constructor
  · rintro (h | h)
    · exact Or.inl h.symm
    · exact Or.inr h.symm
  · rintro (h | h)
    · exact Or.inl h.symm
    · exact Or.inr h.symm

/-- With one bit per event, the test of event `k` against a bitmask with the READ
bit alone succeeds for READ only. -/
theorem select_read (w : World) (hbits : Function.Injective w.bit) (k : SelectKind) :
    w.SELECT SelectKind.READ &&& w.SELECT k ≠ 0 ↔ k = SelectKind.READ := by
  rw [select_bit]
  simp only [World.SELECT, Nat.one_shiftLeft, Nat.testBit_two_pow, decide_eq_true_eq,
    hbits.eq_iff]
  exact ⟨fun h => h.symm, fun h => h.symm⟩

/-- C3, amended: two registered notifiers `p1`, `p2` are the ones bound to handle
`sel`, in that order; the first carries a read callback and no write callback,
the second a write callback and no read callback (whatever their interest
masks, which the pump does not read, and whatever their other four callbacks);
the events have one bit each; the callbacks register nothing and the two named
ones ask for no more exits than the loop allows. Then a pump whose wait result
selects `sel` with READ and WRITE set runs to its end and calls the read
callback of the first, then the write callback of the second, and nothing else;
and a pump whose wait result selects `sel` with READ alone calls the read
callback of the first and nothing else, so no write callback at all. -/
theorem eventloop_fanout (w : World) (s : EventLoop) (fuel : Nat) (sel : Handle)
    (p1 p2 : NotifierPtr) (hinit : s.is_initialize = true) (hq : w.quiet)
    (hfuel : s.notifiers.length < fuel) (hbits : Function.Injective w.bit)
    (hbound : (s.notifiers.filter fun p => decide ((w.notifier p).handle = sel)) = [p1, p2])
    (hr1 : (w.notifier p1).on_ready_to_read ≠ NULL)
    (hw1 : (w.notifier p1).on_ready_to_write = NULL)
    (hw2 : (w.notifier p2).on_ready_to_write ≠ NULL)
    (hr2 : (w.notifier p2).on_ready_to_read = NULL)
    (hexit : (exits (w.body (w.notifier p1).on_ready_to_read p1 (w.notifier p1).handle ++
      w.body (w.notifier p2).on_ready_to_write p2 (w.notifier p2).handle)).length ≤
        exit_budget s) :
    (∃ s', eventloop_pump w fuel
          ⟨ERR_SUCCESS, sel, w.SELECT SelectKind.READ ||| w.SELECT SelectKind.WRITE⟩ s =
          Outcome.ok s' ∧
        s'.log = s.log ++ [LoopEvent.select (wait_args s),
          LoopEvent.call SelectKind.READ (w.notifier p1).on_ready_to_read p1
            (w.notifier p1).handle,
          LoopEvent.call SelectKind.WRITE (w.notifier p2).on_ready_to_write p2
            (w.notifier p2).handle]) ∧
      ∃ s', eventloop_pump w fuel ⟨ERR_SUCCESS, sel, w.SELECT SelectKind.READ⟩ s =
          Outcome.ok s' ∧
        s'.log = s.log ++ [LoopEvent.select (wait_args s),
          LoopEvent.call SelectKind.READ (w.notifier p1).on_ready_to_read p1
            (w.notifier p1).handle] := by
  have hrw := select_read_write w hbits
  have hrd := select_read w hbits
  have hboth : expected_calls w s.notifiers sel
      (w.SELECT SelectKind.READ ||| w.SELECT SelectKind.WRITE) =
      [LoopEvent.call SelectKind.READ (w.notifier p1).on_ready_to_read p1
          (w.notifier p1).handle,
        LoopEvent.call SelectKind.WRITE (w.notifier p2).on_ready_to_write p2
          (w.notifier p2).handle] := by
    unfold expected_calls
    rw [hbound]
    simp [expected_calls_of_eq, fire_calls, hrw, hr1, hw1, hw2, hr2]
  have hread : expected_calls w s.notifiers sel (w.SELECT SelectKind.READ) =
      [LoopEvent.call SelectKind.READ (w.notifier p1).on_ready_to_read p1
          (w.notifier p1).handle] := by
    unfold expected_calls
    rw [hbound]
    have hnz : w.SELECT SelectKind.READ ≠ 0 := by
      simp [World.SELECT, Nat.one_shiftLeft]
    simp [expected_calls_of_eq, fire_calls, hrd, hr1, hr2, hnz]
  have hx1 : (exits (w.body (w.notifier p1).on_ready_to_read p1 (w.notifier p1).handle)).length ≤
      exit_budget s := by
    rw [exits_append, List.length_append] at hexit
    omega
  constructor
  · obtain ⟨s', h1, h2, _⟩ := pump_quiet_log w s
      ⟨ERR_SUCCESS, sel, w.SELECT SelectKind.READ ||| w.SELECT SelectKind.WRITE⟩ fuel hinit rfl hq
      (by rw [hboth]; simpa [actions_of] using hexit) hfuel
    exact ⟨s', h1, by rw [h2, hboth]⟩
  · obtain ⟨s', h1, h2, _⟩ := pump_quiet_log w s
      ⟨ERR_SUCCESS, sel, w.SELECT SelectKind.READ⟩ fuel hinit rfl hq
      (by rw [hread]; simpa [actions_of] using hx1) hfuel
    exact ⟨s', h1, by rw [h2, hread]⟩

theorem bit_demo_injective : Function.Injective bit_demo := by
  intro a b h
  cases a <;> cases b <;> first | rfl | (simp [bit_demo] at h)

theorem world_demo_quiet : world_demo.quiet := by
  intro fn p h
  simp only [world_demo]
  split <;> rfl

/-- C3, amended, at a concrete input: the loop `loop_demo`, whose notifiers `1`
(read callback only) and `2` (write callback only) share handle 10. -/
theorem eventloop_fanout_witness :
    (∃ s', eventloop_pump world_demo 4
          ⟨ERR_SUCCESS, 10,
            world_demo.SELECT SelectKind.READ ||| world_demo.SELECT SelectKind.WRITE⟩
          loop_demo = Outcome.ok s' ∧
        s'.log = loop_demo.log ++ [LoopEvent.select (wait_args loop_demo),
          LoopEvent.call SelectKind.READ (world_demo.notifier 1).on_ready_to_read 1
            (world_demo.notifier 1).handle,
          LoopEvent.call SelectKind.WRITE (world_demo.notifier 2).on_ready_to_write 2
            (world_demo.notifier 2).handle]) ∧
      ∃ s', eventloop_pump world_demo 4
          ⟨ERR_SUCCESS, 10, world_demo.SELECT SelectKind.READ⟩ loop_demo = Outcome.ok s' ∧
        s'.log = loop_demo.log ++ [LoopEvent.select (wait_args loop_demo),
          LoopEvent.call SelectKind.READ (world_demo.notifier 1).on_ready_to_read 1
            (world_demo.notifier 1).handle] :=
  eventloop_fanout world_demo loop_demo 4 10 1 2 rfl world_demo_quiet (by decide)
    bit_demo_injective rfl (by decide) rfl (by decide) rfl (by decide)

/-- A pump that runs to its end was made on an initialised loop. -/
theorem pump_ok_init (w : World) (fuel : Nat) (r : SelectResult) (s s' : EventLoop)
    (h : eventloop_pump w fuel r s = Outcome.ok s') : s.is_initialize = true := by
  by_cases hi : s.is_initialize = true
  · exact hi
  · simp [eventloop_pump, hi] at h

/-- A pump that runs to its end logged, first of all, its wait call on the arrays
as they were when it began. -/
theorem pump_log_head (w : World) (fuel : Nat) (r : SelectResult) (s s' : EventLoop)
    (h : eventloop_pump w fuel r s = Outcome.ok s') :
    ∃ tr, s'.log = s.log ++ LoopEvent.select (wait_args s) :: tr := by
  have hinit := pump_ok_init w fuel r s s' h
  by_cases hres : r.result = ERR_SUCCESS
  · exact ⟨_, (pump_effect w fuel r s s' hinit hres h).log⟩
  · unfold eventloop_pump at h
    rw [if_neg (by simp [hinit]), if_pos hres] at h
    simp only [Outcome.ok.injEq] at h
    subst h
    exact ⟨[LoopEvent.error r.result], rfl⟩

/-- The two ways of saying that the arrays describe the collection agree. -/
theorem in_sync_iff (w : World) (s : EventLoop) : in_sync w s ↔ arrays_describe w s := by
  unfold in_sync arrays_describe wait_args
  constructor
  · intro h
    have hlen : s.handles_count = s.notifiers.length := by
      have := congrArg List.length h
      simpa using this
    refine ⟨hlen, fun i hi => ?_⟩
    have hi' : i < ((List.range s.handles_count).map fun i => (s.handles i, s.events i)).length := by
      simp [hlen, hi]
    have hget := List.getElem_of_eq h hi'
    simp only [List.getElem_map, List.getElem_range, wait_entry, Prod.mk.injEq] at hget
    simpa using hget
  · rintro ⟨hlen, hall⟩
    apply List.ext_getElem
    · simp [hlen]
    · intro i h1 h2
      have hi : i < s.notifiers.length := by simpa using h2
      obtain ⟨ha, hb⟩ := hall i hi
      simp only [List.getElem_map, List.getElem_range, wait_entry, Prod.mk.injEq]
      simpa using And.intro ha hb

/-- C4: a registration made inside a pump takes effect at the next pump. Let
pump N be made on an initialised loop, with a wait call that succeeds and one
round of fuel per registered notifier and one for the end test; let the
callbacks it has to call have room in the arrays for the notifiers they
register, and ask for no more exits than the loop allows. Then pump N runs to
its end; its calls are the calls that the spec gives for the notifiers that
were registered when it began; the collection it leaves is that collection
followed by the notifiers that the called callbacks registered, in order. For
every notifier `p` so registered: if `p` was not in the collection when the
pump began, none of its callbacks is called in pump N, whatever the handle it
is bound to; the arrays describe the collection when pump N ends, so the handle
and the interest mask of `p` are among the arguments of the next wait call;
and pump N+1, made from there, logs that wait call first, on those
arguments. -/
theorem registration_during_pump (w : World) (fuel : Nat) (r : SelectResult)
    (s : EventLoop) (hinit : s.is_initialize = true) (hres : r.result = ERR_SUCCESS)
    (hroom : room w s
      ((expected_calls w s.notifiers r.selected r.selected_events).flatMap (actions_of w)))
    (hexit : (exits ((expected_calls w s.notifiers r.selected r.selected_events).flatMap
      (actions_of w))).length ≤ exit_budget s)
    (hfuel : s.notifiers.length < fuel) :
    ∃ s', eventloop_pump w fuel r s = Outcome.ok s' ∧
      s'.log = s.log ++ LoopEvent.select (wait_args s) ::
        expected_calls w s.notifiers r.selected r.selected_events ∧
      s'.notifiers = s.notifiers ++
        registered ((expected_calls w s.notifiers r.selected r.selected_events).flatMap
          (actions_of w)) ∧
      ∀ p ∈ registered ((expected_calls w s.notifiers r.selected r.selected_events).flatMap
          (actions_of w)),
        (p ∉ s.notifiers → ∀ k fn h,
          LoopEvent.call k fn p h ∉ expected_calls w s.notifiers r.selected r.selected_events) ∧
        arrays_describe w s' ∧ wait_entry w p ∈ wait_args s' ∧
        (∀ fuel' r', r'.result ≠ ERR_SUCCESS →
          eventloop_pump w fuel' r' s' =
            Outcome.ok
              { s' with
                log := s'.log ++
                  [LoopEvent.select (wait_args s'), LoopEvent.error r'.result] }) ∧
        ∀ fuel' r' s'', eventloop_pump w fuel' r' s' = Outcome.ok s'' →
          ∃ tr', s''.log = s'.log ++ LoopEvent.select (wait_args s') :: tr' := by
  obtain ⟨s', hpump⟩ := pump_total w s r fuel hinit hres hroom hexit hfuel
  have e := pump_effect w fuel r s s' hinit hres hpump
  refine ⟨s', hpump, e.log, e.notifiers, ?_⟩
  intro p hp
  have hsync : in_sync w s' := e.sync (List.ne_nil_of_mem hp)
  have hmem : p ∈ s'.notifiers := by
    rw [e.notifiers]
    exact List.mem_append_right _ hp
  refine ⟨?_, (in_sync_iff w s').mp hsync, ?_, ?_,
    fun fuel' r' s'' h => pump_log_head w fuel' r' s' s'' h⟩
  · intro hfresh k fn h hc
    exact hfresh (mem_expected_calls w _ _ _ k fn p h hc).1
  · rw [hsync]
    exact List.mem_map_of_mem _ hmem
  · intro fuel' r' hfail
    unfold eventloop_pump
    rw [if_neg (by simp [e.init]), if_pos hfail]

/-- C4 at a concrete input: the pump of `loop_late` (handle 10 selected, READ
set), in which the read callback of notifier `1` registers notifier `4`, bound
to handle 10 with a read callback, and notifier `3`, bound to handle 20. The pump
calls the read callback of notifier `1` and nothing else; notifier `4` is in the
collection and in the arguments of the next wait call when the pump ends. -/
theorem registration_during_pump_witness :
    ∃ s', eventloop_pump world_late 4 ⟨ERR_SUCCESS, 10, 1⟩ loop_late = Outcome.ok s' ∧
      s'.log = [LoopEvent.select [(10, 1)], LoopEvent.call SelectKind.READ 101 1 10] ∧
      s'.notifiers = [1, 4, 3] ∧
      (∀ k fn h,
        LoopEvent.call k fn 4 h ∉ expected_calls world_late loop_late.notifiers 10 1) ∧
      arrays_describe world_late s' ∧ (10, 1) ∈ wait_args s' ∧
      (∀ fuel' r', r'.result ≠ ERR_SUCCESS →
        eventloop_pump world_late fuel' r' s' =
          Outcome.ok
            { s' with
              log := s'.log ++
                [LoopEvent.select (wait_args s'), LoopEvent.error r'.result] }) ∧
      ∀ fuel' r' s'', eventloop_pump world_late fuel' r' s' = Outcome.ok s'' →
        ∃ tr', s''.log = s'.log ++ LoopEvent.select (wait_args s') :: tr' :=
  match registration_during_pump world_late 4 ⟨ERR_SUCCESS, 10, 1⟩ loop_late rfl rfl
      (by unfold room; decide) (by decide) (by decide) with
  | ⟨s', h1, h2, h3, h4⟩ =>
    ⟨s', h1, h2.trans rfl, h3.trans rfl, (h4 4 (by decide)).1 (by decide),
      (h4 4 (by decide)).2.1, (h4 4 (by decide)).2.2.1, (h4 4 (by decide)).2.2.2⟩

/-- C5: exit is deferred to the end of the pump. Let the `while` of
`eventloop_run` be about to make its wait call number `k`, on an initialised
and running loop `s`; let that wait call succeed, and let the callbacks that the
pump has to call have room in the arrays for the notifiers they register and
make, all in all, the one call `eventloop_exit(c)`. Then, with one round of fuel
per registered notifier and one for the end test, the pump runs to its end and
makes every call that the spec gives for the collection it began with, the
ones after the exit included; it leaves the loop not running, with exit code
`c`; the `while` ends there, without another pump; and `eventloop_run` returns
exactly `c`, in a state that is neither running nor initialised and whose log
ends with that pump: when the pump is the first of the run, and whenever the
`while` of the run has come to pump number `k` in state `s`. -/
theorem exit_deferred (w : World) (sel : Nat → SelectResult) (fuel rounds k : Nat)
    (s : EventLoop) (c : Int)
    (hinit : s.is_initialize = true) (hrun : s.is_running = true)
    (hres : (sel k).result = ERR_SUCCESS)
    (hroom : room w s
      ((expected_calls w s.notifiers (sel k).selected (sel k).selected_events).flatMap
        (actions_of w)))
    (hexit : exits ((expected_calls w s.notifiers (sel k).selected
      (sel k).selected_events).flatMap (actions_of w)) = [c])
    (hfuel : s.notifiers.length < fuel) :
    ∃ s', eventloop_pump w fuel (sel k) s = Outcome.ok s' ∧
      s'.log = s.log ++ LoopEvent.select (wait_args s) ::
        expected_calls w s.notifiers (sel k).selected (sel k).selected_events ∧
      s'.is_running = false ∧ s'.exit_value = c ∧
      eventloop_run_loop w sel fuel (rounds + 2) k s = Outcome.ok s' ∧
      (∀ s0 : EventLoop, k = 0 → s0.is_running = false →
        s = { s0 with is_running := true } →
        eventloop_run w sel fuel (rounds + 2) s0 =
          Outcome.ok (c, { s' with notifiers := [], is_initialize := false })) ∧
      ∀ (s0 : EventLoop) (m : Nat), s0.is_initialize = true → s0.is_running = false →
        eventloop_run_loop w sel fuel (rounds + 2 + m) 0 { s0 with is_running := true } =
          eventloop_run_loop w sel fuel (rounds + 2) k s →
        eventloop_run w sel fuel (rounds + 2 + m) s0 =
          Outcome.ok (c, { s' with notifiers := [], is_initialize := false }) := by
  obtain ⟨s', hpump⟩ := pump_total w s (sel k) fuel hinit hres hroom
    (by rw [hexit]; simp [exit_budget, hrun]) hfuel
  have e := pump_effect w fuel (sel k) s s' hinit hres hpump
  obtain ⟨hrun', hval⟩ : s'.is_running = false ∧ s'.exit_value = c := by
    rcases e.exit with ⟨e1, _, _⟩ | ⟨c', e1, _, r1', v1⟩
    · rw [hexit] at e1
      cases e1
    · rw [hexit] at e1
      simp only [List.cons.injEq, and_true] at e1
      exact ⟨r1', e1 ▸ v1⟩
  have hloop : eventloop_run_loop w sel fuel (rounds + 2) k s = Outcome.ok s' := by
    simp only [eventloop_run_loop, hrun, if_true, hpump, Outcome.bind, hrun',
      Bool.false_eq_true, if_false]
  have hrest : ((Outcome.ok s' : Outcome EventLoop EventLoop).bind
      eventloop_uninitialize).bind (fun t => Outcome.ok (t.exit_value, t)) =
      Outcome.ok (c, { s' with notifiers := [], is_initialize := false }) := by
    simp only [Outcome.bind, eventloop_uninitialize, e.init, hrun', Bool.not_true,
      Bool.false_eq_true, if_false, hval]
  refine ⟨s', hpump, e.log, hrun', hval, hloop, ?_, ?_⟩
  · intro s0 hk h0r hs
    subst hk
    have h0i : s0.is_initialize = true := by
      rw [hs] at hinit
      exact hinit
    unfold eventloop_run
    rw [if_neg (by simp [h0i]), if_neg (by simp [h0r]), ← hs, hloop]
    exact hrest
  · intro s0 m h0i h0r harrive
    unfold eventloop_run
    rw [if_neg (by simp [h0i]), if_neg (by simp [h0r]), harrive, hloop]
    exact hrest

/-- C5 at a concrete input: the run of `loop_demo_idle` on `select_demo`. Its
second pump, made from `loop_demo_first`, calls callback 101, which exits with
code 7, and then callback 102; the run returns 7. -/
theorem exit_deferred_witness :
    ∃ s', eventloop_pump world_demo 4 (select_demo 1) loop_demo_first = Outcome.ok s' ∧
      s'.log = loop_demo_first.log ++
        [LoopEvent.select [(10, 1), (10, 2), (20, 1)],
          LoopEvent.call SelectKind.READ 101 1 10,
          LoopEvent.call SelectKind.WRITE 102 2 10] ∧
      s'.is_running = false ∧ s'.exit_value = 7 ∧
      eventloop_run_loop world_demo select_demo 4 2 1 loop_demo_first = Outcome.ok s' ∧
      eventloop_run world_demo select_demo 4 3 loop_demo_idle =
        Outcome.ok (7, { s' with notifiers := [], is_initialize := false }) :=
  match exit_deferred world_demo select_demo 4 0 1 loop_demo_first 7 rfl rfl rfl
      (by unfold room; decide) (by decide) (by decide) with
  | ⟨s', h1, h2, h3, h4, h5, _, h7⟩ =>
    ⟨s', h1, h2, h3, h4, h5, h7 loop_demo_idle 1 rfl rfl rfl⟩

/-! ## Failure paths, life cycle and the derived arrays -/

/-- C11: a failed wait call skips the pump. For an initialised loop and a result
of `handle_select` other than `ERR_SUCCESS`, `eventloop_pump` runs to its end
with the state it began with, log apart: the running flag, the exit code, the
collection, the handle count and both arrays are untouched, and the log grows by
the wait call and the one error line, with no call of a callback. In
`eventloop_run`, when that was wait call number `k` of a running loop, the
`while` goes on to pump number `k + 1` from that state. -/
theorem pump_wait_failure (w : World) (fuel : Nat) (r : SelectResult) (s : EventLoop)
    (hinit : s.is_initialize = true) (hres : r.result ≠ ERR_SUCCESS) :
    eventloop_pump w fuel r s =
        Outcome.ok
          { s with log := s.log ++ [LoopEvent.select (wait_args s), LoopEvent.error r.result] } ∧
      ∀ (sel : Nat → SelectResult) (rounds k : Nat), sel k = r → s.is_running = true →
        eventloop_run_loop w sel fuel (rounds + 2) k s =
          (eventloop_pump w fuel (sel (k + 1))
            { s with
              log := s.log ++ [LoopEvent.select (wait_args s), LoopEvent.error r.result] }).bind
            (eventloop_run_loop w sel fuel rounds (k + 2)) := by
  have hp : eventloop_pump w fuel r s =
      Outcome.ok
        { s with log := s.log ++ [LoopEvent.select (wait_args s), LoopEvent.error r.result] } := by
    unfold eventloop_pump
    rw [if_neg (by simp [hinit]), if_pos hres]
  refine ⟨hp, ?_⟩
  intro sel rounds k hk hrun
  simp only [eventloop_run_loop, hrun, if_true, hk, hp, Outcome.bind]

/-- C11 at a concrete input: the running loop `loop_demo` and a wait call that
fails with error code 5. -/
theorem pump_wait_failure_witness :
    eventloop_pump world_demo 4 ⟨5, 0, 0⟩ loop_demo =
        Outcome.ok
          { loop_demo with
            log := loop_demo.log ++ [LoopEvent.select (wait_args loop_demo), LoopEvent.error 5] } ∧
      ∀ (sel : Nat → SelectResult) (rounds k : Nat), sel k = ⟨5, 0, 0⟩ →
        loop_demo.is_running = true →
        eventloop_run_loop world_demo sel 4 (rounds + 2) k loop_demo =
          (eventloop_pump world_demo 4 (sel (k + 1))
            { loop_demo with
              log := loop_demo.log ++
                [LoopEvent.select (wait_args loop_demo), LoopEvent.error 5] }).bind
            (eventloop_run_loop world_demo sel 4 rounds (k + 2)) :=
  pump_wait_failure world_demo 4 ⟨5, 0, 0⟩ loop_demo rfl (by decide)

/-- What `eventloop_update_notifier` does when it runs to its end: the arrays
describe the collection, and nothing else changes. -/
theorem update_notifier_ok (w : World) (s s' : EventLoop)
    (h : eventloop_update_notifier w s = Outcome.ok s') :
    s'.notifiers = s.notifiers ∧ in_sync w s' ∧ s'.log = s.log ∧
      s'.is_running = s.is_running ∧ s'.is_initialize = s.is_initialize ∧
      s'.exit_value = s.exit_value := by
  unfold eventloop_update_notifier at h
  obtain ⟨h1, h2, h3, h4, h5, h6⟩ := update_loop_ok w _ _ _ h
  refine ⟨h1, ?_, h2, h3, h4, h5⟩
  unfold in_sync
  rw [h6, h1]
  simp [wait_args]

/-- C12: the arrays follow the collection. On an initialised loop, whenever
`eventloop_register_notifier` or `eventloop_unregister_notifier` runs to its
end, the derived arrays describe the collection it leaves: the handle count is
the number of registered notifiers and entry `i` of the two arrays is the
handle and the interest mask of notifier `i`, in insertion order; the
collection left by register is the one before with the notifier as its last
entry, the one left by unregister is the one before without the notifier. And
the calls do run to their end when the collection they leave fits in the
arrays (`PROCESS_HANDLE_COUNT` entries). -/
theorem registration_keeps_sync (w : World) (s : EventLoop) (p : NotifierPtr)
    (hinit : s.is_initialize = true) :
    (∀ s', eventloop_register_notifier w p s = Outcome.ok s' →
        s'.notifiers = s.notifiers ++ [p] ∧ arrays_describe w s') ∧
      (∀ s', eventloop_unregister_notifier w p s = Outcome.ok s' →
        s'.notifiers = list_remove s.notifiers p ∧ arrays_describe w s') ∧
      (s.notifiers.length < w.PROCESS_HANDLE_COUNT →
        ∃ s', eventloop_register_notifier w p s = Outcome.ok s') ∧
      ((list_remove s.notifiers p).length ≤ w.PROCESS_HANDLE_COUNT →
        ∃ s', eventloop_unregister_notifier w p s = Outcome.ok s') := by
  have hreg : eventloop_register_notifier w p s =
      eventloop_update_notifier w { s with notifiers := list_pushback s.notifiers p } := by
    unfold eventloop_register_notifier
    rw [if_neg (by simp [hinit])]
  have hun : eventloop_unregister_notifier w p s =
      eventloop_update_notifier w { s with notifiers := list_remove s.notifiers p } := by
    unfold eventloop_unregister_notifier
    rw [if_neg (by simp [hinit])]
  refine ⟨?_, ?_, ?_, ?_⟩
  · intro s' h
    rw [hreg] at h
    obtain ⟨h1, h2, _⟩ := update_notifier_ok w _ s' h
    exact ⟨h1, (in_sync_iff w s').mp h2⟩
  · intro s' h
    rw [hun] at h
    obtain ⟨h1, h2, _⟩ := update_notifier_ok w _ s' h
    exact ⟨h1, (in_sync_iff w s').mp h2⟩
  · intro hfit
    rw [hreg]
    exact update_loop_total w _ _ (by simp [list_pushback]; omega)
  · intro hfit
    rw [hun]
    exact update_loop_total w _ _ (by simpa using hfit)

/-- C12 at a concrete input: notifier `3` registered once more with the loop
`loop_demo`, and notifier `2` unregistered from it. -/
theorem registration_keeps_sync_witness :
    (∃ s', eventloop_register_notifier world_demo 3 loop_demo = Outcome.ok s' ∧
        s'.notifiers = loop_demo.notifiers ++ [3] ∧ arrays_describe world_demo s') ∧
      ∃ s', eventloop_unregister_notifier world_demo 2 loop_demo = Outcome.ok s' ∧
        s'.notifiers = list_remove loop_demo.notifiers 2 ∧ arrays_describe world_demo s' :=
  ⟨match (registration_keeps_sync world_demo loop_demo 3 rfl).2.2.1 (by decide) with
    | ⟨s', hs'⟩ => ⟨s', hs', (registration_keeps_sync world_demo loop_demo 3 rfl).1 s' hs'⟩,
   match (registration_keeps_sync world_demo loop_demo 2 rfl).2.2.2 (by decide) with
    | ⟨s', hs'⟩ => ⟨s', hs', (registration_keeps_sync world_demo loop_demo 2 rfl).2.1 s' hs'⟩⟩

/-- A sequence in which an assertion fired: it fired in the first part, or the
first part ran to its end and it fired in the second. -/
theorem bind_eq_fatal {σ α β : Type} {o : Outcome σ α} {f : α → Outcome σ β} {x : σ}
    (h : o.bind f = Outcome.fatal x) :
    o = Outcome.fatal x ∨ ∃ a, o = Outcome.ok a ∧ f a = Outcome.fatal x := by
  cases o with
  | ok a => exact Or.inr ⟨a, rfl, h⟩
  | fatal s =>
    simp only [Outcome.bind, Outcome.fatal.injEq] at h
    exact Or.inl (by rw [h])
  | undefined => simp [Outcome.bind] at h
  | timeout => simp [Outcome.bind] at h

/-- Two pieces that only add to the log, one after the other. -/
theorem Grows.bind {f g : EventLoop → Outcome EventLoop EventLoop} (hf : Grows f)
    (hg : Grows g) : Grows fun s => (f s).bind g := by
  intro s hi
  constructor
  · intro s' h
    obtain ⟨s1, h1, h2⟩ := bind_eq_ok h
    obtain ⟨hi1, tr1, hl1⟩ := (hf s hi).1 s1 h1
    obtain ⟨hi2, tr2, hl2⟩ := (hg s1 hi1).1 s' h2
    exact ⟨hi2, tr1 ++ tr2, by rw [hl2, hl1, List.append_assoc]⟩
  · intro x h
    rcases bind_eq_fatal h with h1 | ⟨s1, h1, h2⟩
    · exact (hf s hi).2 x h1
    · obtain ⟨hi1, tr1, hl1⟩ := (hf s hi).1 s1 h1
      obtain ⟨tr2, hl2⟩ := (hg s1 hi1).2 x h2
      exact ⟨tr1 ++ tr2, by rw [hl2, hl1, List.append_assoc]⟩

/-- No assertion fires in the loop of `eventloop_update_notifier`. -/
theorem update_loop_not_fatal (w : World) (ps : List NotifierPtr) :
    ∀ s x : EventLoop, eventloop_update_loop w ps s ≠ Outcome.fatal x := by
  induction ps with
  | nil => intro s x h; simp [eventloop_update_loop] at h
  | cons p ps ih =>
    intro s x h
    simp only [eventloop_update_loop] at h
    by_cases hc : s.handles_count < w.PROCESS_HANDLE_COUNT
    · rw [if_pos hc] at h
      exact ih _ _ h
    · rw [if_neg hc] at h
      cases h

/-- One call of a callback into the loop only adds to the log (it adds nothing). -/
theorem act_grows (w : World) (a : Action) : Grows (eventloop_act w a) := by
  intro s hi
  constructor
  · intro s' h
    have e : Effect w s s' [] [a] := by
      cases a with
      | register p => exact register_effect w p s s' h
      | exit c => exact exit_effect w c s s' h
    exact ⟨e.init, [], e.log⟩
  · intro x h
    cases a with
    | register p =>
      simp only [eventloop_act, eventloop_register_notifier, hi, Bool.not_true,
        Bool.false_eq_true, if_false, eventloop_update_notifier] at h
      exact absurd h (update_loop_not_fatal w _ _ _)
    | exit c =>
      simp only [eventloop_act, eventloop_exit, hi, Bool.not_true, Bool.false_eq_true,
        if_false] at h
      by_cases hr : s.is_running = true
      · simp [hr] at h
      · simp only [hr, Bool.not_false, if_true, Outcome.fatal.injEq] at h
        exact ⟨[], by rw [← h, List.append_nil]⟩

/-- The calls of a callback into the loop only add to the log. -/
theorem acts_grows (w : World) (as : List Action) : Grows (eventloop_acts w as) := by
  induction as with
  | nil =>
    intro s hi
    constructor
    · intro s' h
      simp only [eventloop_acts, Outcome.ok.injEq] at h
      exact ⟨h ▸ hi, [], by rw [← h, List.append_nil]⟩
    · intro x h
      simp [eventloop_acts] at h
  | cons a as ih => exact Grows.bind (act_grows w a) ih

/-- One `if` of the body of the pump loop only adds to the log. -/
theorem fire_grows (w : World) (ev : Nat) (k : SelectKind) (fn : Callback) (p : NotifierPtr) :
    Grows (eventloop_fire w ev k fn p) := by
  intro s hi
  constructor
  · intro s' h
    have e := fire_effect w ev k fn p s s' hi h
    exact ⟨e.init, _, e.log⟩
  · intro x h
    unfold eventloop_fire at h
    by_cases hc : ev &&& w.SELECT k ≠ 0 ∧ fn ≠ NULL
    · rw [if_pos hc] at h
      unfold eventloop_call at h
      obtain ⟨tr, htr⟩ := (acts_grows w _
        { s with log := s.log ++ [LoopEvent.call k fn p (w.notifier p).handle] } hi).2 x h
      exact ⟨LoopEvent.call k fn p (w.notifier p).handle :: tr, by rw [htr]; simp⟩
    · rw [if_neg hc] at h
      cases h

/-- The body of the pump loop only adds to the log. -/
theorem pump_notifier_grows (w : World) (sel : Handle) (ev : Nat) (p : NotifierPtr) :
    Grows (eventloop_pump_notifier w sel ev p) := by
  by_cases hh : (w.notifier p).handle = sel
  · have h6 := Grows.bind (Grows.bind (Grows.bind (Grows.bind (Grows.bind
      (fire_grows w ev SelectKind.READ (w.notifier p).on_ready_to_read p)
      (fire_grows w ev SelectKind.WRITE (w.notifier p).on_ready_to_write p))
      (fire_grows w ev SelectKind.SEND (w.notifier p).on_ready_to_send p))
      (fire_grows w ev SelectKind.RECEIVE (w.notifier p).on_ready_to_receive p))
      (fire_grows w ev SelectKind.CONNECT (w.notifier p).on_ready_to_connect p))
      (fire_grows w ev SelectKind.ACCEPT (w.notifier p).on_ready_to_accept p)
    intro s hi
    have := h6 s hi
    simpa only [eventloop_pump_notifier, if_pos hh] using this
  · intro s hi
    simp only [eventloop_pump_notifier, if_neg hh]
    constructor
    · intro s' h
      simp only [Outcome.ok.injEq] at h
      exact ⟨h ▸ hi, [], by rw [← h, List.append_nil]⟩
    · intro x h
      cases h

/-- The loop of `eventloop_pump` only adds to the log. -/
theorem pump_loop_grows (w : World) (sel : Handle) (ev : Nat) (items : List NotifierPtr) :
    ∀ (fuel i : Nat), Grows (eventloop_pump_loop w sel ev items fuel i) := by
  intro fuel
  induction fuel with
  | zero =>
    intro i s _
    constructor
    · intro s' h; simp [eventloop_pump_loop] at h
    · intro x h; simp [eventloop_pump_loop] at h
  | succ fuel ih =>
    intro i s hi
    cases hp : list_foreach_item items i with
    | none =>
      simp only [eventloop_pump_loop, hp]
      constructor
      · intro s' h
        simp only [Outcome.ok.injEq] at h
        exact ⟨h ▸ hi, [], by rw [← h, List.append_nil]⟩
      · intro x h
        cases h
    | some p =>
      have := Grows.bind (pump_notifier_grows w sel ev p) (ih (i + 1)) s hi
      simpa only [eventloop_pump_loop, hp] using this

/-- A pump that runs to its end leaves the loop initialised. -/
theorem pump_ok_init_after (w : World) (fuel : Nat) (r : SelectResult) (s s' : EventLoop)
    (h : eventloop_pump w fuel r s = Outcome.ok s') : s'.is_initialize = true := by
  have hinit := pump_ok_init w fuel r s s' h
  by_cases hres : r.result = ERR_SUCCESS
  · exact (pump_effect w fuel r s s' hinit hres h).init
  · unfold eventloop_pump at h
    rw [if_neg (by simp [hinit]), if_pos hres] at h
    simp only [Outcome.ok.injEq] at h
    rw [← h]
    exact hinit

/-- An assertion that fires in a pump: it is the one of `eventloop_pump`, on a loop
that is not initialised and in the state the pump was called in, or it fires
inside a callback, after the wait call was logged. -/
theorem pump_fatal (w : World) (fuel : Nat) (r : SelectResult) (s x : EventLoop)
    (h : eventloop_pump w fuel r s = Outcome.fatal x) :
    (s.is_initialize = false ∧ x = s) ∨
      (s.is_initialize = true ∧ ∃ tr, x.log = s.log ++ LoopEvent.select (wait_args s) :: tr) := by
  by_cases hinit : s.is_initialize = true
  · right
    refine ⟨hinit, ?_⟩
    unfold eventloop_pump at h
    rw [if_neg (by simp [hinit])] at h
    by_cases hres : r.result ≠ ERR_SUCCESS
    · rw [if_pos hres] at h
      cases h
    · rw [if_neg hres] at h
      obtain ⟨tr, htr⟩ := (pump_loop_grows w r.selected r.selected_events s.notifiers fuel 0
        { s with log := s.log ++ [LoopEvent.select (wait_args s)] } hinit).2 x h
      exact ⟨tr, by rw [htr]; simp⟩
  · left
    have hf : s.is_initialize = false := by simpa using hinit
    refine ⟨hf, ?_⟩
    simp only [eventloop_pump, hf, Bool.not_false, if_true, Outcome.fatal.injEq] at h
    exact h.symm

/-- The `while` of `eventloop_run` on an initialised loop: when it ends, the loop
is initialised and not running; when an assertion fires in it, the log has
grown. -/
theorem run_loop_grows (w : World) (sel : Nat → SelectResult) (fuel : Nat) :
    ∀ (rounds k : Nat) (s : EventLoop), s.is_initialize = true →
      (∀ s', eventloop_run_loop w sel fuel rounds k s = Outcome.ok s' →
        s'.is_initialize = true ∧ s'.is_running = false) ∧
      ∀ x, eventloop_run_loop w sel fuel rounds k s = Outcome.fatal x →
        ∃ tr, tr ≠ [] ∧ x.log = s.log ++ tr := by
  intro rounds
  induction rounds with
  | zero =>
    intro k s _
    constructor
    · intro s' h; simp [eventloop_run_loop] at h
    · intro x h; simp [eventloop_run_loop] at h
  | succ rounds ih =>
    intro k s hi
    by_cases hrun : s.is_running = true
    · simp only [eventloop_run_loop, hrun, if_true]
      constructor
      · intro s' h
        obtain ⟨s1, h1, h2⟩ := bind_eq_ok h
        exact (ih (k + 1) s1 (pump_ok_init_after w fuel (sel k) s s1 h1)).1 s' h2
      · intro x h
        rcases bind_eq_fatal h with h1 | ⟨s1, h1, h2⟩
        · rcases pump_fatal w fuel (sel k) s x h1 with ⟨hf, _⟩ | ⟨_, tr, htr⟩
          · rw [hi] at hf
            cases hf
          · exact ⟨_, List.cons_ne_nil _ _, htr⟩
        · obtain ⟨tr1, htr1⟩ := pump_log_head w fuel (sel k) s s1 h1
          obtain ⟨tr2, _, htr2⟩ :=
            (ih (k + 1) s1 (pump_ok_init_after w fuel (sel k) s s1 h1)).2 x h2
          exact ⟨(LoopEvent.select (wait_args s) :: tr1) ++ tr2, by simp,
            by rw [htr2, htr1, List.append_assoc]⟩
    · have hf : s.is_running = false := by simpa using hrun
      simp only [eventloop_run_loop, hf, Bool.false_eq_true, if_false]
      constructor
      · intro s' h
        simp only [Outcome.ok.injEq] at h
        rw [← h]
        exact ⟨hi, hf⟩
      · intro x h
        cases h

/-- A log that has grown is another log. -/
theorem log_grown_ne {s x : EventLoop} {tr : List LoopEvent} (hne : tr ≠ [])
    (h : x.log = s.log ++ tr) : x ≠ s := by
  intro hx
  rw [hx] at h
  have := congrArg List.length h
  simp only [List.length_append] at this
  have hpos : 0 < tr.length := List.length_pos.mpr hne
  omega

/-- C13: the assertions of the life cycle. On a loop whose flags agree with its
life cycle (running only if initialised), each of the four operations stops on
its own assertion, in the very state it was called in, exactly when it is
called out of order: `eventloop_run` iff the loop is not initialised or is
already running, `eventloop_pump` iff the loop is not initialised,
`eventloop_exit` iff the loop is not running, `eventloop_uninitialize` iff the
loop is not initialised or is still running. `eventloop_exit` and
`eventloop_uninitialize` contain no other assertion; in `eventloop_pump` and
`eventloop_run` any other assertion that fires does so inside a callback, after
the log has grown. -/
theorem lifecycle_asserts (w : World) (sel : Nat → SelectResult) (fuel rounds : Nat)
    (r : SelectResult) (c : Int) (s : EventLoop) (hinv : lifecycle_ok s) :
    (eventloop_run w sel fuel rounds s = Outcome.fatal s ↔
        (s.is_initialize = false ∨ s.is_running = true)) ∧
      (eventloop_pump w fuel r s = Outcome.fatal s ↔ s.is_initialize = false) ∧
      (eventloop_exit c s = Outcome.fatal s ↔ s.is_running = false) ∧
      ( eventloop_uninitialize s = Outcome.fatal s ↔
        (s.is_initialize = false ∨ s.is_running = true)) ∧
      (∀ x, eventloop_exit c s = Outcome.fatal x → x = s) ∧
      (∀ x, eventloop_uninitialize s = Outcome.fatal x → x = s) ∧
      (∀ x, eventloop_pump w fuel r s = Outcome.fatal x → x ≠ s →
        ∃ tr, tr ≠ [] ∧ x.log = s.log ++ tr) ∧
      ∀ x, eventloop_run w sel fuel rounds s = Outcome.fatal x → x ≠ s →
        ∃ tr, tr ≠ [] ∧ x.log = s.log ++ tr := by
  have hrunx : ∀ x, eventloop_run w sel fuel rounds s = Outcome.fatal x →
      ((s.is_initialize = false ∨ s.is_running = true) ∧ x = s) ∨
        ∃ tr, tr ≠ [] ∧ x.log = s.log ++ tr := by
    intro x h
    unfold eventloop_run at h
    by_cases hi : s.is_initialize = true
    · by_cases hr : s.is_running = true
      · rw [if_neg (by simp [hi]), if_pos hr] at h
        simp only [Outcome.fatal.injEq] at h
        exact Or.inl ⟨Or.inr hr, h.symm⟩
      · rw [if_neg (by simp [hi]), if_neg hr] at h
        right
        rcases bind_eq_fatal h with h1 | ⟨s2, _, h2⟩
        · rcases bind_eq_fatal h1 with h3 | ⟨s1, h3, h4⟩
          · exact (run_loop_grows w sel fuel rounds 0 { s with is_running := true } hi).2 x h3
          · obtain ⟨hi1, hr1⟩ :=
              (run_loop_grows w sel fuel rounds 0 { s with is_running := true } hi).1 s1 h3
            simp [ eventloop_uninitialize, hi1, hr1] at h4
        · cases h2
    · have hf : s.is_initialize = false := by simpa using hi
      simp only [hf, Bool.not_false, if_true, Outcome.fatal.injEq] at h
      exact Or.inl ⟨Or.inl hf, h.symm⟩
  refine ⟨?_, ?_, ?_, ?_, ?_, ?_, ?_, ?_⟩
  · constructor
    · intro h
      rcases hrunx s h with ⟨hc, _⟩ | ⟨tr, hne, htr⟩
      · exact hc
      · exact absurd rfl (log_grown_ne hne htr)
    · rintro (hf | hr)
      · simp [eventloop_run, hf]
      · by_cases hi : s.is_initialize = true
        · simp [eventloop_run, hi, hr]
        · simp [eventloop_run, hi]
  · constructor
    · intro h
      rcases pump_fatal w fuel r s s h with ⟨hf, _⟩ | ⟨_, tr, htr⟩
      · exact hf
      · exact absurd rfl (log_grown_ne (List.cons_ne_nil _ _) htr)
    · intro hf
      simp [eventloop_pump, hf]
  · constructor
    · intro h
      by_cases hr : s.is_running = true
      · have hi := hinv hr
        simp [eventloop_exit, hi, hr] at h
      · simpa using hr
    · intro hf
      by_cases hi : s.is_initialize = true
      · simp [eventloop_exit, hi, hf]
      · simp [eventloop_exit, hi]
  · constructor
    · intro h
      by_cases hi : s.is_initialize = true
      · by_cases hr : s.is_running = true
        · exact Or.inr hr
        · simp [ eventloop_uninitialize, hi, hr] at h
      · exact Or.inl (by simpa using hi)
    · rintro (hf | hr)
      · simp [ eventloop_uninitialize, hf]
      · by_cases hi : s.is_initialize = true
        · simp [ eventloop_uninitialize, hi, hr]
        · simp [ eventloop_uninitialize, hi]
  · intro x h
    unfold eventloop_exit at h
    split at h
    · simp only [Outcome.fatal.injEq] at h; exact h.symm
    · split at h
      · simp only [Outcome.fatal.injEq] at h; exact h.symm
      · cases h
  · intro x h
    unfold eventloop_uninitialize at h
    split at h
    · simp only [Outcome.fatal.injEq] at h; exact h.symm
    · split at h
      · simp only [Outcome.fatal.injEq] at h; exact h.symm
      · cases h
  · intro x h hx
    rcases pump_fatal w fuel r s x h with ⟨_, he⟩ | ⟨_, tr, htr⟩
    · exact absurd he hx
    · exact ⟨_, List.cons_ne_nil _ _, htr⟩
  · intro x h hx
    rcases hrunx x h with ⟨_, he⟩ | hgrow
    · exact absurd he hx
    · exact hgrow

/-- The flags agree with the life cycle before any call, and after every operation
that runs to its end, whatever the state it was called in. -/
theorem lifecycle_ok_kept (w : World) (sel : Nat → SelectResult) (fuel rounds : Nat)
    (r : SelectResult) (c : Int) (p : NotifierPtr) (s s' : EventLoop) :
    lifecycle_ok EventLoop.boot ∧
      (eventloop_initilize s = Outcome.ok s' → lifecycle_ok s') ∧
      ( eventloop_uninitialize s = Outcome.ok s' → lifecycle_ok s') ∧
      (eventloop_exit c s = Outcome.ok s' → lifecycle_ok s') ∧
      (eventloop_register_notifier w p s = Outcome.ok s' → lifecycle_ok s') ∧
      (eventloop_unregister_notifier w p s = Outcome.ok s' → lifecycle_ok s') ∧
      (eventloop_pump w fuel r s = Outcome.ok s' → lifecycle_ok s') ∧
      ∀ v, eventloop_run w sel fuel rounds s = Outcome.ok (v, s') → lifecycle_ok s' := by
  refine ⟨(fun h => by cases h), ?_, ?_, ?_, ?_, ?_, ?_, ?_⟩
  · intro h _
    unfold eventloop_initilize at h
    split at h
    · cases h
    · simp only [Outcome.ok.injEq] at h
      rw [← h]
  · intro h hr
    unfold eventloop_uninitialize at h
    split at h
    · cases h
    · split at h
      · cases h
      · rename_i hnr
        simp only [Outcome.ok.injEq] at h
        rw [← h] at hr
        exact absurd hr hnr
  · intro h hr
    have e := exit_effect w c s s' h
    exact e.init
  · intro h _
    exact (register_effect w p s s' h).init
  · intro h _
    unfold eventloop_unregister_notifier at h
    split at h
    · cases h
    · rename_i hi
      obtain ⟨_, _, _, _, h5, _⟩ := update_notifier_ok w _ s' h
      rw [h5]
      simpa using hi
  · intro h _
    exact pump_ok_init_after w fuel r s s' h
  · intro v h hr
    unfold eventloop_run at h
    split at h
    · cases h
    · split at h
      · cases h
      · obtain ⟨s2, h1, h2⟩ := bind_eq_ok h
        simp only [Outcome.ok.injEq, Prod.mk.injEq] at h2
        obtain ⟨s1, _, h4⟩ := bind_eq_ok h1
        unfold eventloop_uninitialize at h4
        split at h4
        · cases h4
        · split at h4
          · cases h4
          · rename_i hnr
            simp only [Outcome.ok.injEq] at h4
            rw [← h2.2, ← h4] at hr
            exact absurd hr hnr

/-- C13 at concrete inputs: before `eventloop_initilize` each of the four
operations stops on its assertion and keeps the state; on the running loop
`loop_demo`, `eventloop_exit` does not. -/
theorem lifecycle_asserts_witness :
    eventloop_run world_demo select_demo 4 3 EventLoop.boot = Outcome.fatal EventLoop.boot ∧
      eventloop_pump world_demo 4 (select_demo 0) EventLoop.boot =
        Outcome.fatal EventLoop.boot ∧
      eventloop_exit 7 EventLoop.boot = Outcome.fatal EventLoop.boot ∧
      eventloop_uninitialize EventLoop.boot = Outcome.fatal EventLoop.boot ∧
      eventloop_exit 7 loop_demo ≠ Outcome.fatal loop_demo :=
  ⟨(lifecycle_asserts world_demo select_demo 4 3 (select_demo 0) 7 EventLoop.boot
      (fun h => by cases h)).1.mpr (Or.inl rfl),
    (lifecycle_asserts world_demo select_demo 4 3 (select_demo 0) 7 EventLoop.boot
      (fun h => by cases h)).2.1.mpr rfl,
    (lifecycle_asserts world_demo select_demo 4 3 (select_demo 0) 7 EventLoop.boot
      (fun h => by cases h)).2.2.1.mpr rfl,
    (lifecycle_asserts world_demo select_demo 4 3 (select_demo 0) 7 EventLoop.boot
      (fun h => by cases h)).2.2.2.1.mpr (Or.inl rfl),
    fun h => Bool.noConfusion
      ((lifecycle_asserts world_demo select_demo 4 3 (select_demo 0) 7 loop_demo
        (fun _ => rfl)).2.2.1.mp h)⟩

/-- The loop of `eventloop_update_notifier` over entries that the arrays hold
already: the stores change nothing, only the count moves. -/
theorem update_loop_same (w : World) (s : EventLoop) :
    ∀ (ps : List NotifierPtr) (c : Nat), c + ps.length ≤ w.PROCESS_HANDLE_COUNT →
      (∀ (j : Nat) (h : j < ps.length),
        s.handles (c + j) = (w.notifier (ps.get ⟨j, h⟩)).handle ∧
          s.events (c + j) = (w.notifier (ps.get ⟨j, h⟩)).events) →
      eventloop_update_loop w ps { s with handles_count := c } =
        Outcome.ok { s with handles_count := c + ps.length } := by
  intro ps
  induction ps with
  | nil => intro c _ _; rfl
  | cons p ps ih =>
    intro c hfit hall
    simp only [List.length_cons] at hfit
    obtain ⟨h0, e0⟩ := hall 0 (by simp)
    simp only [Nat.add_zero, List.get_eq_getElem, List.getElem_cons_zero] at h0 e0
    simp only [eventloop_update_loop]
    rw [if_pos (by omega), ← h0, ← e0, Function.update_eq_self, Function.update_eq_self]
    have := ih (c + 1) (by omega) (fun j hj => by
      have := hall (j + 1) (by simp only [List.length_cons]; omega)
      simpa [Nat.add_assoc, Nat.add_comm 1 j] using this)
    rw [this, List.length_cons]
    congr 2
    omega

/-- C14, refuted as stated, at two inputs. Before `eventloop_initilize`, unregistering
a notifier that is in no collection fails the assertion of
`eventloop_unregister_notifier`. And on the initialised loop `loop_stale`, left by
initialise, register, uninitialise, initialise, whose collection is empty and
whose handle count is still 1, unregistering notifier `9` runs to its end and
sets the handle count to 0. -/
theorem unregister_absent_counterexample :
    eventloop_unregister_notifier world_demo 9 EventLoop.boot =
        Outcome.fatal EventLoop.boot ∧
      eventloop_calls world_demo
          [ LoopCall.initilize, LoopCall.register 1, LoopCall.uninitialize, LoopCall.initilize]
          EventLoop.boot = Outcome.ok loop_stale ∧
      loop_stale.is_initialize = true ∧ 9 ∉ loop_stale.notifiers ∧
      loop_stale.handles_count = 1 ∧
      ∃ s', eventloop_unregister_notifier world_demo 9 loop_stale = Outcome.ok s' ∧
        s'.handles_count = 0 :=
  ⟨rfl, rfl, rfl, by decide, rfl, _, rfl, rfl⟩

/-- C14, amended: on an initialised loop whose arrays describe the collection
(which fits in them), unregistering a notifier that is not in the collection
runs to its end and leaves the very state it was called in: collection, handle
count, both arrays, flags, exit code and log. -/
theorem unregister_absent_noop (w : World) (s : EventLoop) (p : NotifierPtr)
    (hinit : s.is_initialize = true) (hsync : arrays_describe w s)
    (hfit : s.notifiers.length ≤ w.PROCESS_HANDLE_COUNT) (habsent : p ∉ s.notifiers) :
    eventloop_unregister_notifier w p s = Outcome.ok s := by
  unfold eventloop_unregister_notifier
  rw [if_neg (by simp [hinit])]
  unfold eventloop_update_notifier list_remove
  rw [List.erase_of_not_mem habsent]
  have h := update_loop_same w s s.notifiers 0 (by omega) (fun j hj => by
    simpa using hsync.2 j hj)
  have hs : ({ s with notifiers := s.notifiers, handles_count := 0 } : EventLoop) =
      { s with handles_count := 0 } := rfl
  rw [hs, h, Nat.zero_add, ← hsync.1]

/-- C14, amended, at a concrete input: notifier `9` unregistered from the loop
`loop_demo`. -/
theorem unregister_absent_noop_witness :
    eventloop_unregister_notifier world_demo 9 loop_demo = Outcome.ok loop_demo :=
  unregister_absent_noop world_demo loop_demo 9 rfl
    ((in_sync_iff world_demo loop_demo).mp (by unfold in_sync; decide)) (by decide) (by decide)

/-! ## Initialisation and blocking of the dispatcher -/

/-- A task held in `task_block` on an empty queue stays held, whatever the number
of times the scheduler looks at it, and touches nothing. -/
theorem blocked_stays (d : Dispatcher) (q : RingBuffer) (hq : d.queue = some q)
    (hempty : ringbuffer_is_empty q = true) :
    ∀ n, dispatcher_service_run n Pc.blocked d = some (Pc.blocked, d) := by
  intro n
  induction n with
  | zero => rfl
  | succ n ih =>
    simp only [dispatcher_service_run, dispatcher_service_step, dispatcher_can_unblock, hq,
      hempty, task_block, Bool.not_true, Bool.false_eq_true, if_false]
    exact ih

/-- C15, refuted as stated: after `dispatcher_initialize` and the dispatch of
number 4, a second `dispatcher_initialize` goes through; the queue it leaves is
empty (number 4 is gone), two tasks are spawned on `dispatcher_service`, and the
dispatcher task finds nothing to pop. -/
theorem initialize_twice_counterexample :
    ∃ d1 q1 q2, dispatcher_dispatch ( dispatcher_initialize Dispatcher.boot) 4 = some d1 ∧
      d1.queue = some q1 ∧ q1.contents = [4] ∧
      ( dispatcher_initialize d1).queue = some q2 ∧ q2.contents = [] ∧
      ( dispatcher_initialize d1).spawned = 2 ∧
      dispatcher_service_run 5 Pc.check ( dispatcher_initialize d1) =
        some (Pc.blocked, { ( dispatcher_initialize d1) with log := [Event.block] }) :=
  ⟨_, _, _, rfl, rfl, rfl, rfl, rfl, rfl, rfl⟩

/-- C15, amended: `dispatcher_initialize` has no guard. Whatever the state it is
called in, a first call or a later one, it goes through, puts a fresh empty
queue of 1024 slots in place of the queue there was, spawns one more task on
`dispatcher_service`, and leaves the handler table and the log as they were.
With no dispatch after it, the dispatcher task then blocks and pops nothing:
what was queued before the call is not delivered. -/
theorem initialize_replaces_queue (d : Dispatcher) :
    ( dispatcher_initialize d).queue = some (ringbuffer_create 1024) ∧
      (ringbuffer_create 1024).contents = [] ∧
      ( dispatcher_initialize d).spawned = d.spawned + 1 ∧
      ( dispatcher_initialize d).handlers = d.handlers ∧
      ( dispatcher_initialize d).log = d.log ∧
      ∀ n, dispatcher_service_run (n + 1) Pc.check ( dispatcher_initialize d) =
        some (Pc.blocked, { ( dispatcher_initialize d) with log := d.log ++ [Event.block] }) := by
  refine ⟨rfl, ringbuffer_create_contents 1024, rfl, rfl, rfl, ?_⟩
  intro n
  have hstep : dispatcher_service_step Pc.check ( dispatcher_initialize d) =
      some (Pc.blocked, { ( dispatcher_initialize d) with log := d.log ++ [Event.block] }) := rfl
  simp only [dispatcher_service_run, hstep]
  exact blocked_stays _ (ringbuffer_create 1024) rfl rfl n

/-- C16: blocking instead of polling. In a round of `dispatcher_service` on a queue
`q`: at the emptiness test the task gives itself to `task_block` (one `block`
entry in the log) when the queue is empty, and goes to the pop without blocking
when it is not; the predicate of the blocker, `dispatcher_can_unblock`, holds
exactly when the queue is not empty; a task held on an empty queue stays held
for any number of looks of the scheduler, with the queue, the table and the log
untouched (no pop, no handler lookup); a held task goes on to the pop exactly
when the queue is not empty; and a dispatch on the empty queue makes the
predicate hold, after which the held task goes on. -/
theorem service_blocks_iff_empty (d : Dispatcher) (q : RingBuffer) (hq : d.queue = some q) :
    (ringbuffer_is_empty q = true →
        dispatcher_service_step Pc.check d =
          some (Pc.blocked, { d with log := d.log ++ [Event.block] })) ∧
      (ringbuffer_is_empty q = false → dispatcher_service_step Pc.check d = some (Pc.pop, d)) ∧
      dispatcher_can_unblock d = some (!ringbuffer_is_empty q) ∧
      (ringbuffer_is_empty q = true →
        ∀ n, dispatcher_service_run n Pc.blocked d = some (Pc.blocked, d)) ∧
      (ringbuffer_is_empty q = false → dispatcher_service_step Pc.blocked d = some (Pc.pop, d)) ∧
      (∀ pc' d', dispatcher_service_step Pc.blocked d = some (pc', d') →
        d' = d ∧ (pc' = Pc.pop ↔ ringbuffer_is_empty q = false)) ∧
      (q.WF → ringbuffer_is_empty q = true → ∀ n, ∃ d1, dispatcher_dispatch d n = some d1 ∧
        dispatcher_can_unblock d1 = some true ∧
        dispatcher_service_step Pc.blocked d1 = some (Pc.pop, d1)) := by
  refine ⟨?_, ?_, ?_, blocked_stays d q hq, ?_, ?_, ?_⟩
  · intro he
    simp [dispatcher_service_step, hq, he]
  · intro he
    simp [dispatcher_service_step, hq, he]
  · simp [dispatcher_can_unblock, hq]
  · intro he
    simp [dispatcher_service_step, dispatcher_can_unblock, task_block, hq, he]
  · intro pc' d' h
    cases he : ringbuffer_is_empty q
    · simp [dispatcher_service_step, dispatcher_can_unblock, task_block, hq, he] at h
      exact ⟨h.2.symm, by simp [h.1]⟩
    · simp [dispatcher_service_step, dispatcher_can_unblock, task_block, hq, he] at h
      exact ⟨h.2.symm, by simp [← h.1]⟩
  · intro hwf he n
    have hused : q.used = 0 := by simpa [ringbuffer_is_empty] using he
    obtain ⟨_, _, hu, _⟩ := ringbuffer_putc_contents q n hwf (by
      have := hwf.size_pos
      omega)
    have hne : ringbuffer_is_empty (ringbuffer_putc q n).2 = false := by
      simp [ringbuffer_is_empty, hu]
    refine ⟨{ d with queue := some (ringbuffer_putc q n).2 }, ?_, ?_, ?_⟩
    · simp [dispatcher_dispatch, hq]
    · simp [dispatcher_can_unblock, hne]
    · simp [dispatcher_service_step, dispatcher_can_unblock, task_block, hne]

/-- C16 at a concrete input: the dispatcher `dispatcher_demo`, whose queue is the
empty queue that `dispatcher_initialize` made, and a dispatch of number 4. -/
theorem service_blocks_iff_empty_witness :
    dispatcher_service_step Pc.check dispatcher_demo =
        some (Pc.blocked, { dispatcher_demo with log := dispatcher_demo.log ++ [Event.block] }) ∧
      (∀ n, dispatcher_service_run n Pc.blocked dispatcher_demo =
        some (Pc.blocked, dispatcher_demo)) ∧
      ∃ d1, dispatcher_dispatch dispatcher_demo 4 = some d1 ∧
        dispatcher_can_unblock d1 = some true ∧
        dispatcher_service_step Pc.blocked d1 = some (Pc.pop, d1) :=
  ⟨(service_blocks_iff_empty dispatcher_demo (ringbuffer_create 1024) rfl).1 rfl,
    (service_blocks_iff_empty dispatcher_demo (ringbuffer_create 1024) rfl).2.2.2.1 rfl,
    (service_blocks_iff_empty dispatcher_demo (ringbuffer_create 1024) rfl).2.2.2.2.2.2
      (ringbuffer_create_wf 1024 (by decide)) rfl 4⟩

theorem popped_append (es fs : List Event) : popped (es ++ fs) = popped es ++ popped fs := by
  induction es with
  | nil => rfl
  | cons e es ih => cases e <;> simp [popped, ih]

theorem popped_handle (t : Nat → Handler) (n : Nat) : popped [dispatcher_handle t n] = [n] := by
  unfold dispatcher_handle
  split <;> rfl

/-- A push on a queue that holds something leaves a queue that holds something. -/
theorem putc_not_empty (q : RingBuffer) (c : Nat) (h : ringbuffer_is_empty q = false) :
    ringbuffer_is_empty (ringbuffer_putc q c).2 = false := by
  unfold ringbuffer_putc
  split
  · exact h
  · simp [ringbuffer_is_empty]

/-- What the queue holds after a push: what it held, and the number pushed or, on
a full queue, nothing more. -/
theorem putc_contents_subset (q : RingBuffer) (c : Nat) (hwf : q.WF) :
    ∀ x ∈ (ringbuffer_putc q c).2.contents, x ∈ q.contents ++ [c] := by
  by_cases hroom : q.used < q.size
  · rw [(ringbuffer_putc_contents q c hwf hroom).2.2.2]
    exact fun x hx => hx
  · have hfull : ringbuffer_is_full q = true := by
      have := hwf.used_le
      simp [ringbuffer_is_full]
      omega
    simp only [ringbuffer_putc, hfull, if_true]
    exact fun x hx => List.mem_append_left _ hx

/-- One move of the kernel from a state in which the task is not about to pop an
empty queue: the move is defined, the task is again not about to pop an empty
queue, what it popped was in the queue, and what the queue holds was there or
was just pushed. -/
theorem system_step_safe (m : Move) (pc : Pc) (d : Dispatcher) (q : RingBuffer)
    (hq : d.queue = some q) (hwf : q.WF)
    (hpc : pc = Pc.pop → ringbuffer_is_empty q = false)
    (hold : ∀ x ∈ q.contents, x < 255) :
    ∃ pc' d' q' tr, system_step m pc d = some (pc', d') ∧ d'.queue = some q' ∧ q'.WF ∧
      (pc' = Pc.pop → ringbuffer_is_empty q' = false) ∧ d'.log = d.log ++ tr ∧
      (∀ x ∈ popped tr, x ∈ q.contents) ∧
      ∀ x ∈ q'.contents, x ∈ q.contents ++ pushed [m] := by
  cases m with
  | irq n =>
    refine ⟨pc, { d with queue := some (ringbuffer_putc q n).2 }, (ringbuffer_putc q n).2, [],
      ?_, rfl, ringbuffer_putc_wf q n hwf, fun h => putc_not_empty q n (hpc h), (List.append_nil _).symm, ?_, ?_⟩
    · simp [system_step, dispatcher_dispatch, hq]
    · intro x hx
      cases hx
    · exact putc_contents_subset q n hwf
  | task =>
    cases pc with
    | check =>
      cases he : ringbuffer_is_empty q
      · exact ⟨Pc.pop, d, q, [], by simp [system_step, dispatcher_service_step, hq, he], hq,
          hwf, fun _ => he, (List.append_nil _).symm, (fun x hx => by cases hx),
          fun x hx => List.mem_append_left _ hx⟩
      · exact ⟨Pc.blocked, { d with log := d.log ++ [Event.block] }, q, [Event.block],
          by simp [system_step, dispatcher_service_step, hq, he], hq, hwf,
          (fun h => by cases h), rfl, (fun x hx => by cases hx),
          fun x hx => List.mem_append_left _ hx⟩
    | blocked =>
      cases he : ringbuffer_is_empty q
      · exact ⟨Pc.pop, d, q, [],
          by simp [system_step, dispatcher_service_step, dispatcher_can_unblock, task_block,
            hq, he], hq, hwf, fun _ => he, (List.append_nil _).symm, (fun x hx => by cases hx),
          fun x hx => List.mem_append_left _ hx⟩
      · exact ⟨Pc.blocked, d, q, [],
          by simp [system_step, dispatcher_service_step, dispatcher_can_unblock, task_block,
            hq, he], hq, hwf, (fun h => by cases h), (List.append_nil _).symm, (fun x hx => by cases hx),
          fun x hx => List.mem_append_left _ hx⟩
    | pop =>
      have hne := hpc rfl
      have hused : 0 < q.used := by
        simp [ringbuffer_is_empty] at hne
        omega
      obtain ⟨v, q1, hget, hwf1, _, _, hc1⟩ := ringbuffer_getc_contents q hwf hused
      have hv : v < 255 := hold v (by rw [hc1]; exact List.mem_cons_self _ _)
      refine ⟨Pc.check,
        { d with queue := some q1, log := d.log ++ [dispatcher_handle d.handlers v] }, q1,
        [dispatcher_handle d.handlers v], ?_, rfl, hwf1, (fun h => by cases h), rfl, ?_, ?_⟩
      · simp [system_step, dispatcher_service_step, hq, hget, hv]
      · intro x hx
        rw [popped_handle, List.mem_singleton] at hx
        rw [hx, hc1]
        exact List.mem_cons_self _ _
      · intro x hx
        rw [hc1]
        exact List.mem_append_left _ (List.mem_cons_of_mem _ hx)

/-- C17: no pop of an empty queue. Let the kernel make any sequence of moves, each
one a move of the dispatcher task (the only one to take anything off the queue;
a task held in `task_block` goes on only when the predicate of its blocker
holds) or an interrupt whose number, in 0..254, is given to
`dispatcher_dispatch`; let it start in a state in which the task is not about
to pop an empty queue. Then every move is defined, so no `ringbuffer_getc` is
made on an empty queue; in the state reached the task is again not about to pop
an empty queue (and the states on the way are the states reached by the shorter
sequences); and every number popped on the way is one that was in the queue at
the start or that `dispatcher_dispatch` pushed on the way. -/
theorem pop_never_empty (ms : List Move) :
    ∀ (pc : Pc) (d : Dispatcher) (q : RingBuffer), d.queue = some q → q.WF →
      (pc = Pc.pop → ringbuffer_is_empty q = false) →
      (∀ x ∈ q.contents, x < 255) → (∀ x ∈ pushed ms, x < 255) →
      ∃ pc' d' q' tr, system_run ms pc d = some (pc', d') ∧ d'.queue = some q' ∧ q'.WF ∧
        (pc' = Pc.pop → ringbuffer_is_empty q' = false) ∧ d'.log = d.log ++ tr ∧
        (∀ x ∈ popped tr, x ∈ q.contents ++ pushed ms) ∧
        ∀ x ∈ q'.contents, x ∈ q.contents ++ pushed ms := by
  induction ms with
  | nil =>
    intro pc d q hq hwf hpc _ _
    exact ⟨pc, d, q, [], rfl, hq, hwf, hpc, (List.append_nil _).symm, (fun x hx => by cases hx),
      fun x hx => List.mem_append_left _ hx⟩
  | cons m ms ih =>
    intro pc d q hq hwf hpc hold hirq
    obtain ⟨pc1, d1, q1, tr1, hs1, hq1, hwf1, hpc1, hl1, hp1, hc1⟩ :=
      system_step_safe m pc d q hq hwf hpc hold
    have hsplit : pushed (m :: ms) = pushed [m] ++ pushed ms := by
      cases m <;> simp [pushed]
    have hold1 : ∀ x ∈ q1.contents, x < 255 := by
      intro x hx
      rcases List.mem_append.mp (hc1 x hx) with h | h
      · exact hold x h
      · exact hirq x (by rw [hsplit]; exact List.mem_append_left _ h)
    have hirq1 : ∀ x ∈ pushed ms, x < 255 :=
      fun x hx => hirq x (by rw [hsplit]; exact List.mem_append_right _ hx)
    obtain ⟨pc2, d2, q2, tr2, hs2, hq2, hwf2, hpc2, hl2, hp2, hc2⟩ :=
      ih pc1 d1 q1 hq1 hwf1 hpc1 hold1 hirq1
    have hinto : ∀ x ∈ q1.contents ++ pushed ms, x ∈ q.contents ++ pushed (m :: ms) := by
      intro x hx
      rw [hsplit, ← List.append_assoc]
      rcases List.mem_append.mp hx with h | h
      · exact List.mem_append_left _ (hc1 x h)
      · exact List.mem_append_right _ h
    refine ⟨pc2, d2, q2, tr1 ++ tr2, ?_, hq2, hwf2, hpc2, ?_, ?_, ?_⟩
    · simp only [system_run, hs1]
      exact hs2
    · rw [hl2, hl1, List.append_assoc]
    · intro x hx
      rw [popped_append] at hx
      rcases List.mem_append.mp hx with h | h
      · exact List.mem_append_left _ (hp1 x h)
      · exact hinto x (hp2 x h)
    · intro x hx
      exact hinto x (hc2 x hx)

/-- C17 at a concrete input: the moves `moves_demo` from the emptiness test on the
empty queue of `dispatcher_demo`. -/
theorem pop_never_empty_witness :
    (system_run moves_demo Pc.check dispatcher_demo).map (fun r => (r.1, r.2.log)) =
        some (Pc.check, [Event.block, Event.invoke 3 7, Event.warn 4]) ∧
      ∃ pc' d' q' tr, system_run moves_demo Pc.check dispatcher_demo = some (pc', d') ∧
        d'.queue = some q' ∧ q'.WF ∧
        (pc' = Pc.pop → ringbuffer_is_empty q' = false) ∧ d'.log = dispatcher_demo.log ++ tr ∧
        (∀ x ∈ popped tr, x ∈ (ringbuffer_create 1024).contents ++ pushed moves_demo) ∧
        ∀ x ∈ q'.contents, x ∈ (ringbuffer_create 1024).contents ++ pushed moves_demo :=
  ⟨rfl, pop_never_empty moves_demo Pc.check dispatcher_demo (ringbuffer_create 1024) rfl
    (ringbuffer_create_wf 1024 (by decide)) (fun h => by cases h) (by decide) (by decide)⟩

/-! ## Capacity and re-initialisation of the event loop -/

/-- The loop of `eventloop_update_notifier` leaves the arrays when it has more
entries to store than the arrays have room for. -/
theorem update_loop_overflow (w : World) (ps : List NotifierPtr) :
    ∀ s : EventLoop, s.handles_count ≤ w.PROCESS_HANDLE_COUNT →
      w.PROCESS_HANDLE_COUNT < s.handles_count + ps.length →
      eventloop_update_loop w ps s = Outcome.undefined := by
  induction ps with
  | nil =>
    intro s h1 h2
    simp only [List.length_nil, Nat.add_zero] at h2
    omega
  | cons p ps ih =>
    intro s h1 h2
    simp only [List.length_cons] at h2
    simp only [eventloop_update_loop]
    by_cases hc : s.handles_count < w.PROCESS_HANDLE_COUNT
    · rw [if_pos hc]
      exact ih _ (by simp only; omega) (by simp only; omega)
    · rw [if_neg hc]

/-- C18, the code at the failing input: on an initialised loop whose collection has
already as many notifiers as the arrays have entries, one more
`eventloop_register_notifier` makes `eventloop_update_notifier` store at index
`PROCESS_HANDLE_COUNT`, outside both arrays. -/
theorem register_overflow (w : World) (s : EventLoop) (p : NotifierPtr)
    (hinit : s.is_initialize = true) (hfull : w.PROCESS_HANDLE_COUNT ≤ s.notifiers.length) :
    eventloop_register_notifier w p s = Outcome.undefined := by
  unfold eventloop_register_notifier
  rw [if_neg (by simp [hinit])]
  unfold eventloop_update_notifier
  exact update_loop_overflow w _ _ (Nat.zero_le _) (by simp [list_pushback]; omega)

/-- C18 at a concrete input: arrays of two entries, and the third registration
after `eventloop_initilize`. -/
theorem register_overflow_witness :
    eventloop_calls world_small
        [ LoopCall.initilize, LoopCall.register 1, LoopCall.register 2] EventLoop.boot =
        Outcome.ok loop_full ∧
      loop_full.handles_count = world_small.PROCESS_HANDLE_COUNT ∧
      eventloop_register_notifier world_small 3 loop_full = Outcome.undefined :=
  ⟨rfl, rfl, register_overflow world_small loop_full 3 rfl (by decide)⟩

/-- C19, the code at the failing input: initialise, register notifier `1`,
uninitialise, initialise again. The loop is initialised and its collection is
empty, but the handle count is still 1 and the arrays still hold the handle and
the interest mask of notifier `1`; the next pump gives that one stale entry to
its wait call. -/
theorem reinitialize_keeps_count :
    eventloop_calls world_demo
        [ LoopCall.initilize, LoopCall.register 1, LoopCall.uninitialize, LoopCall.initilize]
        EventLoop.boot = Outcome.ok loop_stale ∧
      loop_stale.is_initialize = true ∧ loop_stale.notifiers = [] ∧
      loop_stale.handles_count = 1 ∧ wait_args loop_stale = [(10, 1)] ∧
      ¬ in_sync world_demo loop_stale ∧
      ∃ s', eventloop_pump world_demo 1 ⟨ERR_SUCCESS, 10, 1⟩ loop_stale = Outcome.ok s' ∧
        s'.log = [LoopEvent.select [(10, 1)]] :=
  ⟨rfl, rfl, rfl, rfl, rfl, by unfold in_sync; decide, _, rfl, rfl⟩

end Skift
